import Mathlib

/-!
Verification of the Home Credit dashboard's data-preparation and aggregation
pipeline (`preprocessing.py` and `utils/utils.py`) against its specification.

Modelling conventions, used throughout:
* Machine floats are modelled by exact rationals `ℚ`.  Where the code can see
  IEEE special values (`_guard_ratio` deals with `inf`/`-inf`/`nan`
  explicitly) we use the dedicated type `FloatVal` below; elsewhere a missing
  value (`NaN` / `pd.NA`) is `Option.none` or the cell value `Val.na`.
* A pandas `Series` is a list of cell values; a `DataFrame` is an ordered
  list of named, dtype-tagged columns (`DF` below).
* pandas sorts used only for presentation order (e.g. `sort_values` inside
  `summarize_missingness`) are modelled with insertion sort; none of the
  verified properties depend on the relative order of ties.
-/

namespace HomeCredit

/-! ### IEEE-style scalar values for `_guard_ratio` (preprocessing.py 27–29)

`_guard_ratio` manipulates `np.inf`, `-np.inf` and `NaN` explicitly, so for it
we model a float as either NaN, an infinity, or a finite rational. -/

inductive FloatVal : Type where
  | nan : FloatVal
  | pinf : FloatVal
  | ninf : FloatVal
  | fin : ℚ → FloatVal
deriving DecidableEq, Repr

namespace FloatVal

/-- IEEE-754 division as numpy/pandas perform it elementwise, with signed
zeros abstracted away (the repository never produces a negative zero):
`NaN` is absorbing, `x/0` is `±inf` for `x ≠ 0` and `NaN` for `0/0`,
finite `/ ±inf` is `0`, `±inf / finite` keeps the sign, `inf/inf` is `NaN`. -/
def fdiv : FloatVal → FloatVal → FloatVal
  | nan, _ => nan
  | _, nan => nan
  | fin a, fin b =>
      if b = 0 then (if a = 0 then nan else if 0 < a then pinf else ninf)
      else fin (a / b)
  | fin _, pinf => fin 0
  | fin _, ninf => fin 0
  | pinf, fin b => if 0 ≤ b then pinf else ninf
  | ninf, fin b => if 0 ≤ b then ninf else pinf
  | pinf, pinf => nan
  | pinf, ninf => nan
  | ninf, pinf => nan
  | ninf, ninf => nan

/-- `series.replace([np.inf, -np.inf], np.nan)` on one cell. -/
def replaceInf (v : FloatVal) : FloatVal :=
  match v with
  | pinf => nan
  | ninf => nan
  | v => v

/-- `series.replace([0, np.inf, -np.inf], np.nan)` on one cell. -/
def replaceZeroInf (v : FloatVal) : FloatVal :=
  match v with
  | pinf => nan
  | ninf => nan
  | fin q => if q = 0 then nan else fin q
  | nan => nan

end FloatVal

open FloatVal in
/-- `_guard_ratio` (preprocessing.py lines 27–29):
`r = numer.replace([inf,-inf], nan) / denom.replace([0, inf, -inf], nan);
return r.replace([inf,-inf], nan)`, elementwise over aligned series. -/
def guard_ratio (numer denom : List FloatVal) : List FloatVal :=
  (List.zipWith fdiv (numer.map replaceInf) (denom.map replaceZeroInf)).map replaceInf

/-! ### Winsorizer (`_winsorize`, preprocessing.py lines 10–12)

`lo, hi = series.quantile([lower, upper]); return series.clip(lo, hi), bounds`.
A numeric series is a `List (Option ℚ)` (`none` = missing). -/

/-- The non-missing values of a series (`series.dropna()`). -/
def dropna (s : List (Option ℚ)) : List ℚ := s.filterMap id

/-- The lower interpolation index of pandas' default (linear-interpolation)
quantile: `⌊q * (n-1)⌋` for `n` non-missing values. -/
def qIdx (s : List ℚ) (q : ℚ) : ℕ :=
  (⌊q * ((s.length : ℚ) - 1)⌋).toNat

/-- The upper interpolation index, clamped into the list
(for `q ∈ [0,1)` the fractional weight is zero whenever clamping occurs). -/
def qIdx2 (s : List ℚ) (q : ℚ) : ℕ :=
  min (qIdx s q + 1) (s.length - 1)

/-- The fractional interpolation weight `q*(n-1) - ⌊q*(n-1)⌋`. -/
def qFrac (s : List ℚ) (q : ℚ) : ℚ :=
  q * ((s.length : ℚ) - 1) - (qIdx s q : ℚ)

/-- Linear interpolation `s[i] + g * (s[i+1] - s[i])` on a sorted list of the
non-missing values, exactly as pandas' default quantile computes it. -/
def interpSorted (s : List ℚ) (q : ℚ) : ℚ :=
  s.getD (qIdx s q) 0 + qFrac s q * (s.getD (qIdx2 s q) 0 - s.getD (qIdx s q) 0)

/-- pandas quantile on an already-sorted value list; `none` (NaN) on an empty
distribution. -/
def quantileSorted (s : List ℚ) (q : ℚ) : Option ℚ :=
  match s with
  | [] => none
  | _ :: _ => some (interpSorted s q)

/-- `series.quantile(q)`: sort the non-missing values ascending, then
interpolate. -/
def seriesQuantile (s : List (Option ℚ)) (q : ℚ) : Option ℚ :=
  quantileSorted (List.insertionSort (· ≤ ·) (dropna s)) q

/-- `x.clip(lo, hi)` on one non-missing value: numpy computes
`min(max(x, lo), hi)`, with a missing (`NaN`) threshold ignored. -/
def clipVal (lo hi : Option ℚ) (x : ℚ) : ℚ :=
  let x1 := match lo with
    | some l => max l x
    | none => x
  match hi with
  | some h => min h x1
  | none => x1

/-- `series.clip(lo, hi)`: missing values stay missing, the rest are clipped. -/
def clipSeries (s : List (Option ℚ)) (lo hi : Option ℚ) : List (Option ℚ) :=
  s.map (Option.map (clipVal lo hi))

/-- `_winsorize` (preprocessing.py lines 10–12): compute the two quantiles of
the series' current non-missing distribution, clip into that interval, and
return the clipped series together with the recorded `{low, high}` bounds. -/
def winsorize (s : List (Option ℚ)) (lower upper : ℚ) :
    List (Option ℚ) × (Option ℚ × Option ℚ) :=
  let lo := seriesQuantile s lower
  let hi := seriesQuantile s upper
  (clipSeries s lo hi, (lo, hi))

/-! ### Rare-Category Merger (`_merge_rare_levels`, preprocessing.py 14–25)

The only call site (line 102) passes `df[c].astype("string")` for columns that
have just been mode-imputed, so the series carries no missing entries; we model
it as a `List String`.  `value_counts(normalize=True)` gives each observed
value's share of the total row count; its index is the list of distinct
observed values. -/

/-- A value's share in the series: `count / length`
(`value_counts(dropna=False, normalize=True)[v]`). -/
def share (s : List String) (v : String) : ℚ :=
  (s.count v : ℚ) / (s.length : ℚ)

/-- `freq[freq < min_share].index`: the distinct observed values whose share
is strictly below the threshold. -/
def rareLevels (s : List String) (minShare : ℚ) : List String :=
  s.dedup.filter (fun v => share s v < minShare)

/-- `{str(k): ("Other" if k in rare else str(k)) for k in freq.index}` as an
association list keyed by the distinct observed values. -/
def baseMapping (s : List String) (minShare : ℚ) : List (String × String) :=
  s.dedup.map (fun k => (k, if k ∈ rareLevels s minShare then "Other" else k))

/-- `_merge_rare_levels`'s mapping after the `if "XNA" in mapping:
mapping["XNA"] = "XNA"` override. -/
def mergeMapping (s : List String) (minShare : ℚ) : List (String × String) :=
  let m := baseMapping s minShare
  if (m.lookup "XNA").isSome then
    m.map (fun p => if p.1 = "XNA" then ("XNA", "XNA") else p)
  else m

/-- `s.astype("string").map(lambda x: mapping.get(str(x), str(x)))`: the
remapped series. -/
def mergedSeries (s : List String) (minShare : ℚ) : List String :=
  s.map (fun x => ((mergeMapping s minShare).lookup x).getD x)

/-- `_merge_rare_levels` (preprocessing.py lines 14–25): the remapped column
and the full value→label mapping table. -/
def merge_rare_levels (s : List String) (minShare : ℚ) :
    List String × List (String × String) :=
  (mergedSeries s minShare, mergeMapping s minShare)

/-! ### Tabular data model

A pandas `DataFrame` is an ordered list of named columns, each with a dtype
tag and a list of cell values.  A cell is missing (`NaN`/`pd.NA`), numeric,
or a string; real Home Credit data carries no infinities, so finite `ℚ`
suffices for the numeric cells (the infinity-aware `FloatVal` model above
covers `_guard_ratio` itself). -/

inductive Val : Type where
  | na : Val
  | num : ℚ → Val
  | str : String → Val
deriving DecidableEq, Repr

/-- pandas dtype tags as far as the repository inspects them:
`object` (raw text), `category`, `string` (`astype("string")` output),
and numeric dtypes collapsed into one tag. -/
inductive Dtype : Type where
  | object : Dtype
  | category : Dtype
  | stringD : Dtype
  | numeric : Dtype
deriving DecidableEq, Repr

structure Col : Type where
  name : String
  dtype : Dtype
  vals : List Val
deriving DecidableEq, Repr

structure DF : Type where
  cols : List Col
deriving DecidableEq, Repr

/-- `df.columns`. -/
def DF.names (df : DF) : List String := df.cols.map (·.name)

/-- `df[n]` (first column named `n`, as pandas requires unique names). -/
def DF.getCol? (df : DF) (n : String) : Option Col :=
  df.cols.find? (fun c => c.name == n)

/-- `len(df)`. -/
def DF.nrows (df : DF) : ℕ :=
  match df.cols with
  | [] => 0
  | c :: _ => c.vals.length

/-- The pandas dataframe invariants: unique column names, all columns of the
same length. -/
def DF.Wf (df : DF) : Prop :=
  df.names.Nodup ∧ ∀ c ∈ df.cols, c.vals.length = df.nrows

instance (df : DF) : Decidable df.Wf := by
  unfold DF.Wf
  infer_instance

/-- `df[n] = <series built from df[n]>`: replace the dtype and values of the
column named `n` in place (no-op when the column is absent). -/
def DF.modifyCol (df : DF) (n : String) (f : Col → Dtype × List Val) : DF :=
  ⟨df.cols.map (fun c =>
    if c.name = n then { name := c.name, dtype := (f c).1, vals := (f c).2 }
    else c)⟩

/-- `df[n] = <new series>`: pandas replaces an existing column in place and
appends a brand-new one at the end. -/
def DF.setCol (df : DF) (n : String) (d : Dtype) (vs : List Val) : DF :=
  if df.cols.any (fun c => c.name == n) then df.modifyCol n (fun _ => (d, vs))
  else ⟨df.cols ++ [⟨n, d, vs⟩]⟩

/-- `df.drop(columns=ns, errors="ignore")`. -/
def DF.dropColumns (df : DF) (ns : List String) : DF :=
  ⟨df.cols.filter (fun c => decide (c.name ∉ ns))⟩

/-- Boolean-mask row selection `df[mask]` applied to one column's values. -/
def maskFilter {α : Type} (xs : List α) (mask : List Bool) : List α :=
  (xs.zip mask).filterMap (fun p => if p.2 then some p.1 else none)

/-- `df[mask]`: keep the rows whose mask entry is true. -/
def DF.filterRows (df : DF) (mask : List Bool) : DF :=
  ⟨df.cols.map (fun c => { c with vals := maskFilter c.vals mask })⟩

/-- Numeric view of a cell (`none` for missing or non-numeric). -/
def Val.num? : Val → Option ℚ
  | num q => some q
  | _ => none

/-- The column's values as a numeric series with missing entries. -/
def colOptNums (c : Col) : List (Option ℚ) := c.vals.map Val.num?

/-- `df[c].dropna()` for a numeric column. -/
def colNums (c : Col) : List ℚ := c.vals.filterMap Val.num?

/-- The label column name (`utils.py` `TARGET`, `preprocessing.py`
`TARGET_COL`). -/
def TARGET : String := "TARGET"

/-- `preprocessing.py` `ID_COLS`. -/
def ID_COLS : List String := ["SK_ID_CURR"]

/-! ### Correlation helper (`compute_corr`, utils.py lines 267–307) -/

/-- Sum of squared deviations from the mean.  pandas keeps a column when
`s.std() > 0` (sample std, `ddof=1`); since `std = sqrt(sqDev/(n-1))` and the
size guard forces `n > 2`, `std > 0` is equivalent to `sqDev > 0`, which stays
inside `ℚ`. -/
def sqDev (l : List ℚ) : ℚ :=
  (l.map (fun x => (x - l.sum / (l.length : ℚ)) ^ 2)).sum

/-- The retained columns: numeric dtype (`is_numeric_dtype`), more than 2
non-missing values, and positive variance (`s.size > 2 and s.std() > 0`). -/
def corrKeep (df : DF) : List Col :=
  (df.cols.filter (fun c => c.dtype == Dtype.numeric)).filter
    (fun c => decide (2 < (colNums c).length) && decide (0 < sqDev (colNums c)))

/-- `compute_corr` (utils.py lines 267–307).  The pairwise correlation
arithmetic itself (`df[keep].corr(method=method)`) is pandas-internal, so it
is a parameter `method`; the function returns the labelled matrix over the
retained columns and the TARGET column of the matrix with the TARGET row
dropped (`corr[TARGET].drop(labels=[TARGET])`), both empty when no column
qualifies. -/
def compute_corr (df : DF) (method : List (Option ℚ) → List (Option ℚ) → ℚ) :
    List (String × List (String × ℚ)) × List (String × ℚ) :=
  let keep := corrKeep df
  if keep.isEmpty then ([], [])
  else
    let corr := keep.map (fun c1 =>
      (c1.name, keep.map (fun c2 => (c2.name, method (colOptNums c1) (colOptNums c2)))))
    let tgt := match keep.find? (fun c => c.name == TARGET) with
      | some tcol => (keep.filter (fun c => c.name != TARGET)).map
          (fun c => (c.name, method (colOptNums c) (colOptNums tcol)))
      | none => []
    (corr, tgt)

/-! ### Rate by category (`by_category_rate`, utils.py lines 82–111) -/

/-- A result table with its column headers (the code returns a `DataFrame`
with columns `[col, "Default_%", "count"]` in every branch). -/
structure RateTable : Type where
  headers : List String
  rows : List (Val × Option ℚ × ℕ)
deriving DecidableEq, Repr

/-- Mean of the non-missing values (`NaN`, i.e. `none`, on an empty group,
matching `groupby(...).mean()`). -/
def optMean (l : List ℚ) : Option ℚ :=
  if l.length = 0 then none else some (l.sum / (l.length : ℚ))

/-- One group's `Default_%`: mean of the TARGET values in the group
(missing TARGET entries skipped), times 100. -/
def groupRate (pairs : List (Val × Val)) (k : Val) : Option ℚ :=
  (optMean ((pairs.filter (fun p => p.1 == k)).map Prod.snd |>.filterMap Val.num?)).map
    (fun m => m * 100)

/-- One group's `count` (`groupby(col, dropna=False)[TARGET].size()`). -/
def groupCount (pairs : List (Val × Val)) (k : Val) : ℕ :=
  (pairs.filter (fun p => p.1 == k)).length

/-- Descending order on `Default_%`, missing rates last
(`sort_values("Default_%", ascending=False)`); tie order is not relied on. -/
def rateDescB (a b : Val × Option ℚ × ℕ) : Bool :=
  match a.2.1, b.2.1 with
  | some x, some y => decide (y ≤ x)
  | some _, none => true
  | none, some _ => false
  | none, none => true

/-- `by_category_rate` (utils.py lines 82–111): group by the column's value
(missing values form their own group), rate and size per group, sorted by
rate descending; an empty table with the same headers when TARGET or the
grouping column is absent. -/
def by_category_rate (df : DF) (col : String) : RateTable :=
  match df.getCol? TARGET, df.getCol? col with
  | some tcol, some ccol =>
    let pairs := ccol.vals.zip tcol.vals
    let keys := ccol.vals.dedup
    let rows := keys.map (fun k => (k, groupRate pairs k, groupCount pairs k))
    ⟨[col, "Default_%", "count"],
      List.insertionSort (fun a b => rateDescB a b = true) rows⟩
  | _, _ => ⟨[col, "Default_%", "count"], []⟩

/-! ### Filter engine (`get_filtered_df`, utils.py lines 148–261)

Each widget is modelled at its default value, which is what the round-trip
property is about: multiselects default to all observed (non-missing) values,
sliders to the floored minimum / ceiled maximum of the observed values, and
the include-missing-tenure checkbox to `True`.  The code sorts the observed
values before showing them in a widget; sorting does not change `.isin`
membership, so it is omitted here. -/

/-- `f[col].dropna().unique()`: distinct non-missing values. -/
def obsVals (c : Col) : List Val :=
  (c.vals.filter (fun v => v != Val.na)).dedup

/-- One categorical multiselect at its default:
`sel = <all observed>; if sel: f = f[f[col].isin(sel)]`
(skipped when the column is absent; pass-through when `sel` is empty).
A missing cell is never in `sel`, so `.isin` drops it. -/
def filterCatDefault (df : DF) (n : String) : DF :=
  match df.getCol? n with
  | none => df
  | some c =>
    let sel := obsVals c
    if sel.isEmpty then df
    else df.filterRows (c.vals.map (fun v => sel.contains v))

/-- The preferred bracket order `["Low", "Mid", "High"]` from which the
income-bracket multiselect builds its option list. -/
def bracketPref : List String := ["Low", "Mid", "High"]

/-- The income-bracket multiselect at its default:
`present = [b for b in pref if b in observed]; if present: f = f[f[...].isin(present)]`. -/
def filterIncomeBracketDefault (df : DF) : DF :=
  match df.getCol? "INCOME_BRACKET" with
  | none => df
  | some c =>
    let present := bracketPref.filter (fun b => (obsVals c).contains (Val.str b))
    if present.isEmpty then df
    else df.filterRows (c.vals.map (fun v => present.any (fun b => v == Val.str b)))

/-- The age slider at its default `(floor(min), ceil(max))` plus the range
mask `f[(f[c] >= lo) & (f[c] <= hi)]`.  A comparison against a missing bound
(`min()` of an all-missing column is NaN) or on a missing cell is false, as
in pandas; a non-numeric cell would raise in pandas and is modelled as a
false mask entry. -/
def filterAgeDefault (df : DF) : DF :=
  match df.getCol? "AGE_YEARS" with
  | none => df
  | some c =>
    match (colNums c).min?, (colNums c).max? with
    | some mn, some mx =>
      df.filterRows (c.vals.map (fun v =>
        match v.num? with
        | some q => decide ((⌊mn⌋ : ℚ) ≤ q ∧ q ≤ (⌈mx⌉ : ℚ))
        | none => false))
    | _, _ => df.filterRows (c.vals.map (fun _ => false))
/-- The employment-tenure slider at its default `(floor(min), ceil(max))` of
the non-missing values (`(0,0)` when there are none) with the default-on
"Include Unemployed" toggle: a row passes when its tenure is in range
(`between`, inclusive) or missing. -/
def filterEmploymentDefault (df : DF) : DF :=
  match df.getCol? "EMPLOYMENT_YEARS" with
  | none => df
  | some c =>
    let eb : ℚ × ℚ := match (colNums c).min?, (colNums c).max? with
      | some mn, some mx => ((⌊mn⌋ : ℚ), (⌈mx⌉ : ℚ))
      | _, _ => (0, 0)
    df.filterRows (c.vals.map (fun v =>
      match v with
      | Val.na => true
      | Val.num q => decide (eb.1 ≤ q ∧ q ≤ eb.2)
      | Val.str _ => false))

/-- `get_filtered_df` with every control at its default value, in the order
the code renders the filters (each step recomputes its options from the
current `f`). -/
def get_filtered_df_default (df : DF) : DF :=
  let f := df
  let f := filterCatDefault f "CODE_GENDER"
  let f := filterCatDefault f "NAME_EDUCATION_TYPE"
  let f := filterCatDefault f "NAME_FAMILY_STATUS"
  let f := filterCatDefault f "NAME_HOUSING_TYPE"
  let f := filterAgeDefault f
  let f := filterIncomeBracketDefault f
  filterEmploymentDefault f

/-! ### Preprocessing pipeline (`preprocess_application_train`,
preprocessing.py lines 36–140)

The pipeline is written as named stages composed in source order, so that
theorems can speak about the exact column lists each step iterates over. -/

/-- `str(x)` as `astype(str)` applies it: `NaN` renders as `"nan"`; the exact
float formatting is interpreter-internal and abstracted by `toString` on the
exact rational. -/
def pyStr : Val → String
  | Val.na => "nan"
  | Val.num q => toString q
  | Val.str s => s

/-- `df[c] = df[c].astype(str)` on one column: object dtype, stringified
cells. -/
def astypeStrCol (c : Col) : Dtype × List Val :=
  (Dtype.object, c.vals.map (fun v => Val.str (pyStr v)))

/-- Lines 49–51: `for c in ID_COLS: if c in df.columns: df[c] = df[c].astype(str)`
(modifying an absent column is a no-op, so the presence test is implicit). -/
def stageIds (df : DF) : DF :=
  ID_COLS.foldl (fun d c => d.modifyCol c astypeStrCol) df

/-- Lines 54–55: the object-dtype columns other than IDs and TARGET. -/
def objColsOf (df : DF) : List String :=
  (df.cols.filter (fun c =>
    c.dtype == Dtype.object && decide (c.name ∉ ID_COLS) && c.name != TARGET)).map (·.name)

/-- Lines 56–57: cast those columns to category. -/
def stageObjCat (df : DF) : DF :=
  (objColsOf df).foldl
    (fun d c => d.modifyCol c (fun col => (Dtype.category, col.vals))) df

/-- An elementwise numeric transform: a missing cell stays missing (the
source columns of the derived features are numeric on real data; a
non-numeric cell would raise in pandas and is treated as missing). -/
def numMap (f : ℚ → ℚ) : Val → Val
  | Val.num q => Val.num (f q)
  | _ => Val.na

/-- `_guard_ratio` restricted to the dataframe's finite/missing cells (`DF`
cells carry no infinities; `guard_ratio` above models the full float
semantics): a zero or missing denominator, or a missing numerator, yields a
missing result, otherwise the exact quotient. -/
def guardRatioV : Val → Val → Val
  | Val.num a, Val.num b => if b = 0 then Val.na else Val.num (a / b)
  | _, _ => Val.na

/-- The values of column `n` (`[]` when absent; only used under a presence
guard, mirroring the code's `if c in df.columns`). -/
def colValsOf (df : DF) (n : String) : List Val :=
  ((df.getCol? n).map (·.vals)).getD []

/-- Lines 60–61: `AGE_YEARS = -DAYS_BIRTH / 365.25`. -/
def stageAge (df : DF) : DF :=
  if "DAYS_BIRTH" ∈ df.names then
    df.setCol "AGE_YEARS" Dtype.numeric
      ((colValsOf df "DAYS_BIRTH").map (numMap (fun q => -q / (365.25 : ℚ))))
  else df

/-- Lines 63–65: replace the 365243 sentinel with missing, then
`EMPLOYMENT_YEARS = -DAYS_EMPLOYED / 365.25`. -/
def stageEmployment (df : DF) : DF :=
  if "DAYS_EMPLOYED" ∈ df.names then
    let df2 := df.modifyCol "DAYS_EMPLOYED" (fun col =>
      (col.dtype, col.vals.map (fun v => if v = Val.num 365243 then Val.na else v)))
    df2.setCol "EMPLOYMENT_YEARS" Dtype.numeric
      ((colValsOf df2 "DAYS_EMPLOYED").map (numMap (fun q => -q / (365.25 : ℚ))))
  else df

/-- Lines 67–68: `DTI = _guard_ratio(AMT_ANNUITY, AMT_INCOME_TOTAL)`. -/
def stageDTI (df : DF) : DF :=
  if "AMT_ANNUITY" ∈ df.names ∧ "AMT_INCOME_TOTAL" ∈ df.names then
    df.setCol "DTI" Dtype.numeric
      (List.zipWith guardRatioV (colValsOf df "AMT_ANNUITY")
        (colValsOf df "AMT_INCOME_TOTAL"))
  else df

/-- Lines 70–71: `LTI = _guard_ratio(AMT_CREDIT, AMT_INCOME_TOTAL)`. -/
def stageLTI (df : DF) : DF :=
  if "AMT_CREDIT" ∈ df.names ∧ "AMT_INCOME_TOTAL" ∈ df.names then
    df.setCol "LTI" Dtype.numeric
      (List.zipWith guardRatioV (colValsOf df "AMT_CREDIT")
        (colValsOf df "AMT_INCOME_TOTAL"))
  else df

/-- Lines 73–74: `ANNUITY_TO_CREDIT = _guard_ratio(AMT_ANNUITY, AMT_CREDIT)`. -/
def stageATC (df : DF) : DF :=
  if "AMT_ANNUITY" ∈ df.names ∧ "AMT_CREDIT" ∈ df.names then
    df.setCol "ANNUITY_TO_CREDIT" Dtype.numeric
      (List.zipWith guardRatioV (colValsOf df "AMT_ANNUITY")
        (colValsOf df "AMT_CREDIT"))
  else df

/-- Lines 59–74: all derived features, in source order. -/
def stageDerived (df : DF) : DF :=
  stageATC (stageLTI (stageDTI (stageEmployment (stageAge df))))

/-- Missing percentage of one column (`df.isna().mean() * 100`).  On an empty
frame pandas yields NaN; NaN compares false against the 60% drop threshold,
exactly as the 0 this exact division-by-zero convention yields. -/
def missPct (c : Col) : ℚ :=
  ((c.vals.count Val.na : ℚ) / (c.vals.length : ℚ)) * 100

/-- `summarize_missingness` (lines 31–33): per-column missing percentage,
sorted descending (tie order is presentational only). -/
def summarize_missingness (df : DF) : List (String × ℚ) :=
  List.insertionSort (fun a b => b.2 ≤ a.2)
    (df.cols.map (fun c => (c.name, missPct c)))

/-- Lines 77–80: columns with more than 60% missing, except IDs and TARGET. -/
def dropColsOf (df : DF) : List String :=
  (((summarize_missingness df).filter (fun p => decide (p.2 > 60))).map (·.1)).filter
    (fun c => decide (c ∉ ID_COLS) && c != TARGET)

/-- Line 81: `df.drop(columns=drop_cols, errors="ignore")`. -/
def stageDrop (df : DF) : DF := df.dropColumns (dropColsOf df)

/-- Lines 84–85: numeric columns other than IDs and TARGET. -/
def numColsOf (df : DF) : List String :=
  (df.cols.filter (fun c =>
    c.dtype == Dtype.numeric && decide (c.name ∉ ID_COLS) && c.name != TARGET)).map (·.name)

/-- Lines 86–88: categorical/object columns other than IDs and TARGET. -/
def catColsOf (df : DF) : List String :=
  (df.cols.filter (fun c =>
    (c.dtype == Dtype.category || c.dtype == Dtype.object) &&
      decide (c.name ∉ ID_COLS) && c.name != TARGET)).map (·.name)

/-- pandas median: mean of the middle value(s) of the sorted non-missing
values; NaN when there are none. -/
def median? (l : List ℚ) : Option ℚ :=
  let s := List.insertionSort (· ≤ ·) l
  if s.length = 0 then none
  else if s.length % 2 = 1 then some (s.getD (s.length / 2) 0)
  else some ((s.getD (s.length / 2 - 1) 0 + s.getD (s.length / 2) 0) / 2)

/-- Lines 91–93: `if df[c].isna().any(): df[c] = df[c].fillna(df[c].median())`
(an all-missing column has a NaN median and stays unchanged). -/
def imputeNumCol (c : Col) : Dtype × List Val :=
  if Val.na ∈ c.vals then
    match median? (colNums c) with
    | some m => (c.dtype, c.vals.map (fun v => if v = Val.na then Val.num m else v))
    | none => (c.dtype, c.vals)
  else (c.dtype, c.vals)

/-- A linear order on cells, modelling the ascending sort inside pandas
`mode()` (mode never sees missing cells; a cross-dtype comparison cannot
arise on real data and is fixed arbitrarily by constructor). -/
def valLe (a b : Val) : Bool :=
  match a, b with
  | Val.na, _ => true
  | _, Val.na => false
  | Val.num x, Val.num y => decide (x ≤ y)
  | Val.num _, Val.str _ => true
  | Val.str _, Val.num _ => false
  | Val.str x, Val.str y => decide (x ≤ y)

/-- `df[c].mode(dropna=True).iloc[0]`: the least (in pandas' sorted mode
output) among the most frequent non-missing values; `none` when every cell
is missing. -/
def modeVal? (c : Col) : Option Val :=
  let nn := c.vals.filter (fun v => v != Val.na)
  let maxCnt := (nn.dedup.map (fun v => nn.count v)).foldl max 0
  match nn.dedup.filter (fun v => nn.count v == maxCnt) with
  | [] => none
  | v0 :: vs => some (vs.foldl (fun acc v => if valLe v acc then v else acc) v0)

/-- Lines 94–97: categorical imputation with the mode (or `"Unknown"` when
the column has no non-missing cell), then `astype("category")`. -/
def imputeCatCol (c : Col) : Dtype × List Val :=
  if Val.na ∈ c.vals then
    (Dtype.category,
      c.vals.map (fun v =>
        if v = Val.na then (modeVal? c).getD (Val.str "Unknown") else v))
  else (c.dtype, c.vals)

/-- `astype("string")` cell view used by the rare-merge step.  After
imputation a categorical column has no missing cells; a missing cell is
rendered the way `str(pd.NA)` renders (`"<NA>"`), a numeric one by its
string form. -/
def cellStr : Val → String
  | Val.na => "<NA>"
  | Val.num q => toString q
  | Val.str s => s

/-- Lines 100–104 body: `_merge_rare_levels(df[c].astype("string"), 0.01)`
then `astype("category")`. -/
def rareMergeCol (c : Col) : Dtype × List Val :=
  (Dtype.category, (mergedSeries (c.vals.map cellStr) (1/100)).map Val.str)

/-- Lines 100–104 loop over the categorical columns. -/
def stageRare (df : DF) (cats : List String) : DF :=
  cats.foldl (fun d c => d.modifyCol c rareMergeCol) df

/-- The recorded `rare_maps`, one mapping per categorical column.  The loop
iterations touch pairwise distinct columns (names are unique), so each
mapping is computed against the pre-loop frame. -/
def rareMapsOf (df : DF) (cats : List String) :
    List (String × List (String × String)) :=
  cats.map (fun c => (c, mergeMapping ((colValsOf df c).map cellStr) (1/100)))

/-- Lines 107–108: the fixed skew-prone fields present in the frame. -/
def winsorFieldsOf (df : DF) : List String :=
  (["AMT_INCOME_TOTAL", "AMT_CREDIT", "AMT_ANNUITY", "AMT_GOODS_PRICE",
    "DTI", "LTI"]).filter (fun x => decide (x ∈ df.names))

/-- Lines 110–112 body: `df[c], params = _winsorize(df[c].astype(float), 0.01, 0.99)`
(`astype(float)` on the fixed numeric fields keeps values and missing
cells). -/
def winsorizeCol (c : Col) : Dtype × List Val :=
  (Dtype.numeric,
    ((winsorize (colOptNums c) (1/100) (99/100)).1).map (fun o =>
      match o with
      | some q => Val.num q
      | none => Val.na))

/-- Lines 110–112 loop over the present winsor fields. -/
def stageWinsor (df : DF) (fields : List String) : DF :=
  fields.foldl (fun d c => d.modifyCol c winsorizeCol) df

/-- The recorded `winsor_params` (the fields list has pairwise distinct
names, so each bound pair is computed against the pre-loop frame). -/
def winsorParamsOf (df : DF) (fields : List String) :
    List (String × (Option ℚ × Option ℚ)) :=
  fields.map (fun c => (c, (winsorize ((colValsOf df c).map Val.num?) (1/100) (99/100)).2))

/-- `_br` (lines 118–121) with pandas comparison semantics: a comparison on a
missing cell or against a missing quantile is false, so such rows fall
through to `"Mid"`. -/
def brVal (q1 q3 : Option ℚ) (v : Val) : String :=
  match v, q1, q3 with
  | Val.num x, some a, some b =>
      if x ≤ a then "Low" else if b < x then "High" else "Mid"
  | Val.num x, some a, none => if x ≤ a then "Low" else "Mid"
  | Val.num x, none, some b => if b < x then "High" else "Mid"
  | _, _, _ => "Mid"

/-- Lines 115–122: income brackets from the 25th/75th percentile of (the
winsorized) income. -/
def stageIncomeBracket (df : DF) : DF :=
  if "AMT_INCOME_TOTAL" ∈ df.names then
    df.setCol "INCOME_BRACKET" Dtype.category
      ((colValsOf df "AMT_INCOME_TOTAL").map (fun v =>
        Val.str (brVal
          (seriesQuantile ((colValsOf df "AMT_INCOME_TOTAL").map Val.num?) (1/4))
          (seriesQuantile ((colValsOf df "AMT_INCOME_TOTAL").map Val.num?) (3/4)) v)))
  else df

/-- The artifacts record (line 126). -/
structure Artifacts : Type where
  dropped_cols : List String
  winsor_params : List (String × (Option ℚ × Option ℚ))
  missingness_before : List (String × ℚ)
  missingness_after : List (String × ℚ)
  rare_maps : List (String × List (String × String))
  notes : List String
deriving DecidableEq, Repr

/-- The fixed notes list (lines 132–138). -/
def pipelineNotes : List String :=
  ["IDs excluded from categorical/rare-merge.",
   "Imputed numeric=median; categorical=mode.",
   "Winsorized 1% tails for income/credit/annuity/goods, DTI, LTI.",
   "DAYS_EMPLOYED==365243 treated as missing (unemployed).",
   "Ratios guard against invalid denominators."]

/-- The frame after type casting and feature derivation (lines 46–74). -/
def stage3of (df : DF) : DF := stageDerived (stageObjCat (stageIds df))

/-- The frame after the >60%-missing drop (lines 77–81). -/
def stage4of (df : DF) : DF := stageDrop (stage3of df)

/-- The frame after numeric imputation (lines 91–93). -/
def stage5of (df : DF) : DF :=
  (numColsOf (stage4of df)).foldl (fun d c => d.modifyCol c imputeNumCol) (stage4of df)

/-- The frame after categorical imputation (lines 94–97); the column lists
are the ones computed at lines 84–88, i.e. against the post-drop frame. -/
def stage6of (df : DF) : DF :=
  (catColsOf (stage4of df)).foldl (fun d c => d.modifyCol c imputeCatCol) (stage5of df)

/-- The frame after the rare-label merge (lines 100–104). -/
def stage7of (df : DF) : DF := stageRare (stage6of df) (catColsOf (stage4of df))

/-- The frame after winsorization (lines 107–112). -/
def stage8of (df : DF) : DF := stageWinsor (stage7of df) (winsorFieldsOf (stage7of df))

/-- The final Cleaned Dataset (lines 115–122). -/
def stage9of (df : DF) : DF := stageIncomeBracket (stage8of df)

/-- `preprocess_application_train` (lines 36–140): the Cleaned Dataset plus
the Artifacts Record. -/
def preprocess_application_train (df : DF) : DF × Artifacts :=
  (stage9of df,
   { dropped_cols := dropColsOf (stage3of df)
     winsor_params := winsorParamsOf (stage7of df) (winsorFieldsOf (stage7of df))
     missingness_before := summarize_missingness (stage3of df)
     missingness_after := summarize_missingness (stage9of df)
     rare_maps := rareMapsOf (stage6of df) (catColsOf (stage4of df))
     notes := pipelineNotes })

/-! ### Heap view of the pipeline (for the copy-semantics claim)

Line 46 (`df = df.copy()`) is what keeps the caller's frame intact under the
in-place mutations that follow.  We make Python's object identity explicit:
a heap of frames, address 0 holding the caller's argument, the copy
allocating address 1, and every subsequent statement mutating the frame the
local name `df` points to — address 1. -/

/-- One in-place mutation: overwrite the frame at address `i`. -/
def heapMod (h : List DF) (i : ℕ) (f : DF → DF) : List DF :=
  h.set i (f (h.getD i (DF.mk [])))

/-- `preprocess_application_train` with the heap explicit.  The local column
lists (`num_cols`, `cat_cols`, `winsor_fields`) are plain local values read
from the current frame, as in the source. -/
def preprocessHeap (raw : DF) : List DF :=
  let h : List DF := [raw]
  let h := h ++ [h.getD 0 (DF.mk [])]
  let h := heapMod h 1 stageIds
  let h := heapMod h 1 stageObjCat
  let h := heapMod h 1 stageDerived
  let h := heapMod h 1 stageDrop
  let numCols := numColsOf (h.getD 1 (DF.mk []))
  let catCols := catColsOf (h.getD 1 (DF.mk []))
  let h := heapMod h 1 (fun d => numCols.foldl (fun d' c => d'.modifyCol c imputeNumCol) d)
  let h := heapMod h 1 (fun d => catCols.foldl (fun d' c => d'.modifyCol c imputeCatCol) d)
  let h := heapMod h 1 (fun d => stageRare d catCols)
  let h := heapMod h 1 (fun d => stageWinsor d (winsorFieldsOf d))
  heapMod h 1 stageIncomeBracket

/-- A small raw dataset with identifier and outcome columns, used to
exercise the pipeline theorems on concrete data. -/
def dfRaw : DF := DF.mk
  [⟨"SK_ID_CURR", Dtype.numeric, [Val.num 100001, Val.num 100002]⟩,
   ⟨"TARGET", Dtype.numeric, [Val.num 0, Val.num 1]⟩,
   ⟨"CODE_GENDER", Dtype.object, [Val.str "M", Val.str "F"]⟩]

/-- A small cleaned dataset used to exercise the filter round-trip on
concrete data. -/
def dfSmall : DF := DF.mk
  [⟨"TARGET", Dtype.numeric, [Val.num 0, Val.num 1]⟩,
   ⟨"CODE_GENDER", Dtype.category, [Val.str "M", Val.str "F"]⟩,
   ⟨"AGE_YEARS", Dtype.numeric, [Val.num 30, Val.num 40]⟩,
   ⟨"INCOME_BRACKET", Dtype.category, [Val.str "Low", Val.str "High"]⟩,
   ⟨"EMPLOYMENT_YEARS", Dtype.numeric, [Val.na, Val.num 5]⟩]

/-! ## Theorems -/

/-! ### Guarded ratio (C1) -/

theorem guard_ratio_getElem? (numer denom : List FloatVal) (i : ℕ)
    {a b : FloatVal} (ha : numer[i]? = some a) (hb : denom[i]? = some b) :
    (guard_ratio numer denom)[i]? =
      some (FloatVal.replaceInf (FloatVal.fdiv a.replaceInf b.replaceZeroInf)) := by
  simp [guard_ratio, List.getElem?_map, List.getElem?_zipWith, ha, hb]

theorem replaceInf_ne_inf (v : FloatVal) :
    FloatVal.replaceInf v ≠ .pinf ∧ FloatVal.replaceInf v ≠ .ninf := by
  cases v <;> simp [FloatVal.replaceInf]

/-- C1: at every aligned position of the two series, `_guard_ratio` yields a
missing value (NaN) whenever the denominator is `0`, `+inf` or `-inf` or the
numerator is `±inf`; whenever both operands are finite and the denominator is
non-zero the result is exactly `numerator/denominator`; and the result is
never an infinity. -/
theorem guard_ratio_correct (numer denom : List FloatVal) (i : ℕ)
    (a b : FloatVal) (ha : numer[i]? = some a) (hb : denom[i]? = some b) :
    ((b = .fin 0 ∨ b = .pinf ∨ b = .ninf ∨ a = .pinf ∨ a = .ninf) →
        (guard_ratio numer denom)[i]? = some .nan) ∧
    (∀ x y : ℚ, a = .fin x → b = .fin y → y ≠ 0 →
        (guard_ratio numer denom)[i]? = some (.fin (x / y))) ∧
    (∀ v, (guard_ratio numer denom)[i]? = some v → v ≠ .pinf ∧ v ≠ .ninf) := by
  rw [guard_ratio_getElem? numer denom i ha hb]
  refine ⟨?_, ?_, ?_⟩
  · rintro (rfl | rfl | rfl | rfl | rfl)
    · cases a <;> simp [FloatVal.replaceInf, FloatVal.replaceZeroInf, FloatVal.fdiv]
    · cases a <;> simp [FloatVal.replaceInf, FloatVal.replaceZeroInf, FloatVal.fdiv]
    · cases a <;> simp [FloatVal.replaceInf, FloatVal.replaceZeroInf, FloatVal.fdiv]
    · cases b <;> simp [FloatVal.replaceInf, FloatVal.replaceZeroInf, FloatVal.fdiv]
    · cases b <;> simp [FloatVal.replaceInf, FloatVal.replaceZeroInf, FloatVal.fdiv]
  · rintro x y rfl rfl hy
    simp [FloatVal.replaceInf, FloatVal.replaceZeroInf, FloatVal.fdiv, hy]
  · rintro v hv
    obtain ⟨h1, h2⟩ := replaceInf_ne_inf (FloatVal.fdiv a.replaceInf b.replaceZeroInf)
    cases hv
    exact ⟨h1, h2⟩

theorem guard_ratio_correct_witness :
    (guard_ratio [FloatVal.fin 6, FloatVal.pinf] [FloatVal.fin 2, FloatVal.fin 3])[0]? =
      some (.fin (6 / 2)) :=
  (guard_ratio_correct [FloatVal.fin 6, FloatVal.pinf] [FloatVal.fin 2, FloatVal.fin 3]
      0 (FloatVal.fin 6) (FloatVal.fin 2) rfl rfl).2.1 6 2 rfl rfl (by norm_num)

/-! ### Winsorizer idempotence (C5) -/

theorem clipVal_idem (lo hi : Option ℚ) (x : ℚ) :
    clipVal lo hi (clipVal lo hi x) = clipVal lo hi x := by
  cases lo with
  | none =>
    cases hi with
    | none => simp [clipVal]
    | some h => simp [clipVal, ← min_assoc]
  | some l =>
    cases hi with
    | none => simp [clipVal, ← max_assoc]
    | some h =>
      simp only [clipVal]
      rw [max_min_distrib_left, ← max_assoc, max_self, ← min_assoc,
        min_eq_left (le_max_right l h)]

/-- C5: re-clipping a series with the same `[low, high]` bound pair is a
no-op, both for arbitrary bounds and for the bounds `_winsorize` records. -/
theorem winsorize_idempotent (s : List (Option ℚ)) (lo hi : Option ℚ)
    (lower upper : ℚ) :
    clipSeries (clipSeries s lo hi) lo hi = clipSeries s lo hi ∧
    clipSeries (winsorize s lower upper).1 (winsorize s lower upper).2.1
        (winsorize s lower upper).2.2 = (winsorize s lower upper).1 := by
  have key : ∀ (t : List (Option ℚ)) (a b : Option ℚ),
      clipSeries (clipSeries t a b) a b = clipSeries t a b := by
    intro t a b
    induction t with
    | nil => rfl
    | cons o t ih =>
      cases o with
      | none => simpa [clipSeries] using ih
      | some x => simpa [clipSeries, clipVal_idem] using ih
  exact ⟨key s lo hi, key s _ _⟩

/-! ### Rare-Category Merger (C3) -/

theorem lookup_map_pair (f : String → String) (v : String) :
    ∀ l : List String, v ∈ l →
      (l.map (fun k => (k, f k))).lookup v = some (f v) := by
  intro l hv
  induction l with
  | nil => cases hv
  | cons k t ih =>
    by_cases h : v = k
    · subst h
      simp [List.lookup]
    · have hvt : v ∈ t := by
        rcases List.mem_cons.1 hv with h' | h'
        · exact absurd h' h
        · exact h'
      have hbk : (v == k) = false := by
        simpa using h
      simpa [List.lookup, hbk] using ih hvt

theorem mergeMapping_eq_map (s : List String) (minShare : ℚ) :
    mergeMapping s minShare =
      s.dedup.map (fun k =>
        (k, if k = "XNA" then "XNA"
            else if k ∈ rareLevels s minShare then "Other" else k)) := by
  unfold mergeMapping
  by_cases hx : "XNA" ∈ s.dedup
  · have hlk : (baseMapping s minShare).lookup "XNA" = some
        (if "XNA" ∈ rareLevels s minShare then "Other" else "XNA") :=
      lookup_map_pair _ _ _ hx
    rw [if_pos (by simp [hlk])]
    unfold baseMapping
    rw [List.map_map]
    refine List.map_congr_left ?_
    intro k _
    by_cases hk : k = "XNA" <;> simp [Function.comp, hk]
  · have hlk : (baseMapping s minShare).lookup "XNA" = none := by
      unfold baseMapping
      rw [List.lookup_eq_none_iff]
      intro p hp
      obtain ⟨a, ha, rfl⟩ := List.mem_map.1 hp
      simp only [bne_iff_ne, ne_eq]
      intro hak
      exact hx (hak ▸ ha)
    rw [if_neg (by simp [hlk])]
    unfold baseMapping
    refine List.map_congr_left ?_
    intro k hk
    have : k ≠ "XNA" := fun h => hx (h ▸ hk)
    simp [this]

/-- C3: for every observed value `v` of a categorical series, the mapping
table produced by `_merge_rare_levels` has an entry for `v`; that entry is
`"XNA"` when `v` is the literal `"XNA"` (regardless of frequency), `"Other"`
when `v`'s share is strictly below the threshold, and `v` itself otherwise;
and the remapped column carries exactly that label at every position where
`v` occurred. -/
theorem merge_rare_levels_correct (s : List String) (minShare : ℚ) (v : String)
    (hv : v ∈ s) :
    (mergeMapping s minShare).lookup v =
      some (if v = "XNA" then "XNA"
            else if share s v < minShare then "Other" else v) ∧
    ∀ i : ℕ, s[i]? = some v →
      (mergedSeries s minShare)[i]? =
        some (if v = "XNA" then "XNA"
              else if share s v < minShare then "Other" else v) := by
  have hvd : v ∈ s.dedup := List.mem_dedup.2 hv
  have hrare : (v ∈ rareLevels s minShare) ↔ share s v < minShare := by
    unfold rareLevels
    simp [List.mem_filter, hvd]
  have hmain : (mergeMapping s minShare).lookup v =
      some (if v = "XNA" then "XNA"
            else if share s v < minShare then "Other" else v) := by
    rw [mergeMapping_eq_map]
    rw [lookup_map_pair _ _ _ hvd]
    by_cases hx : v = "XNA"
    · simp [hx]
    · by_cases hr : v ∈ rareLevels s minShare
      · simp [hx, hr, hrare.1 hr]
      · simp [hx, hr, hrare.not.1 hr]
  refine ⟨hmain, ?_⟩
  intro i hi
  unfold mergedSeries
  rw [List.getElem?_map, hi]
  simp [hmain]

theorem merge_rare_levels_correct_witness :
    (mergeMapping ["A", "A", "A", "B", "XNA"] (3/10)).lookup "B" = some "Other" := by
  have h := (merge_rare_levels_correct ["A", "A", "A", "B", "XNA"] (3/10) "B"
    (by decide)).1
  have hcount : List.count "B" ["A", "A", "A", "B", "XNA"] = 1 := by decide
  have hlen : (["A", "A", "A", "B", "XNA"] : List String).length = 5 := by decide
  have hc : share ["A", "A", "A", "B", "XNA"] "B" < 3/10 := by
    simp only [share, hcount, hlen]
    norm_num
  rw [if_neg (by decide), if_pos hc] at h
  exact h

/-! ### Winsorizer bounds (C2) -/

theorem sorted_getD_mono {s : List ℚ} (hs : List.Sorted (· ≤ ·) s) {a b : ℕ}
    (hab : a ≤ b) (hb : b < s.length) : s.getD a 0 ≤ s.getD b 0 := by
  have ha : a < s.length := lt_of_le_of_lt hab hb
  rw [List.getD_eq_getElem _ _ ha, List.getD_eq_getElem _ _ hb]
  exact hs.rel_get_of_le (a := ⟨a, ha⟩) (b := ⟨b, hb⟩) hab

theorem len_sub_one_cast {s : List ℚ} (hne : s ≠ []) :
    ((s.length - 1 : ℕ) : ℚ) = (s.length : ℚ) - 1 :=
  Nat.cast_sub (Nat.one_le_iff_ne_zero.2 (fun h => hne (List.length_eq_zero.1 h)))

theorem qIdx_cast_le {s : List ℚ} (hne : s ≠ []) {q : ℚ} (h0 : 0 ≤ q) :
    (qIdx s q : ℚ) ≤ q * ((s.length : ℚ) - 1) := by
  have hn1 : (0 : ℚ) ≤ (s.length : ℚ) - 1 := by
    have : (1 : ℚ) ≤ (s.length : ℚ) := by
      exact_mod_cast Nat.one_le_iff_ne_zero.2 (fun h => hne (List.length_eq_zero.1 h))
    linarith
  have hh : (0 : ℚ) ≤ q * ((s.length : ℚ) - 1) := mul_nonneg h0 hn1
  have hfl : 0 ≤ ⌊q * ((s.length : ℚ) - 1)⌋ := Int.floor_nonneg.2 hh
  have key : ((⌊q * ((s.length : ℚ) - 1)⌋.toNat : ℕ) : ℚ) =
      ((⌊q * ((s.length : ℚ) - 1)⌋ : ℤ) : ℚ) := by
    rw [← Int.cast_natCast]
    exact congrArg _ (Int.toNat_of_nonneg hfl)
  unfold qIdx
  rw [key]
  exact Int.floor_le _

theorem lt_qIdx_add_one {s : List ℚ} (hne : s ≠ []) {q : ℚ} (h0 : 0 ≤ q) :
    q * ((s.length : ℚ) - 1) < (qIdx s q : ℚ) + 1 := by
  have hn1 : (0 : ℚ) ≤ (s.length : ℚ) - 1 := by
    have : (1 : ℚ) ≤ (s.length : ℚ) := by
      exact_mod_cast Nat.one_le_iff_ne_zero.2 (fun h => hne (List.length_eq_zero.1 h))
    linarith
  have hh : (0 : ℚ) ≤ q * ((s.length : ℚ) - 1) := mul_nonneg h0 hn1
  have hfl : 0 ≤ ⌊q * ((s.length : ℚ) - 1)⌋ := Int.floor_nonneg.2 hh
  have key : ((⌊q * ((s.length : ℚ) - 1)⌋.toNat : ℕ) : ℚ) =
      ((⌊q * ((s.length : ℚ) - 1)⌋ : ℤ) : ℚ) := by
    rw [← Int.cast_natCast]
    exact congrArg _ (Int.toNat_of_nonneg hfl)
  unfold qIdx
  rw [key]
  exact Int.lt_floor_add_one _

theorem qIdx_le_len_sub_one {s : List ℚ} (hne : s ≠ []) {q : ℚ} (h0 : 0 ≤ q)
    (h1 : q ≤ 1) : qIdx s q ≤ s.length - 1 := by
  have hn1 : (0 : ℚ) ≤ (s.length : ℚ) - 1 := by
    have : (1 : ℚ) ≤ (s.length : ℚ) := by
      exact_mod_cast Nat.one_le_iff_ne_zero.2 (fun h => hne (List.length_eq_zero.1 h))
    linarith
  have hh : q * ((s.length : ℚ) - 1) ≤ ((s.length - 1 : ℕ) : ℚ) := by
    rw [len_sub_one_cast hne]
    nlinarith
  have : ⌊q * ((s.length : ℚ) - 1)⌋ ≤ ((s.length - 1 : ℕ) : ℤ) := by
    have := Int.floor_le_floor hh
    rwa [Int.floor_natCast] at this
  unfold qIdx
  calc (⌊q * ((s.length : ℚ) - 1)⌋).toNat ≤ ((s.length - 1 : ℕ) : ℤ).toNat :=
        Int.toNat_le_toNat this
    _ = s.length - 1 := Int.toNat_natCast _

theorem qIdx_le_qIdx2 {s : List ℚ} (hne : s ≠ []) {q : ℚ} (h0 : 0 ≤ q)
    (h1 : q ≤ 1) : qIdx s q ≤ qIdx2 s q :=
  le_min (Nat.le_succ _) (qIdx_le_len_sub_one hne h0 h1)

theorem qIdx2_lt_len {s : List ℚ} (hne : s ≠ []) (q : ℚ) :
    qIdx2 s q < s.length := by
  have h1 : 1 ≤ s.length := Nat.one_le_iff_ne_zero.2 (fun h => hne (List.length_eq_zero.1 h))
  exact lt_of_le_of_lt (min_le_right _ _) (by omega)

theorem qFrac_nonneg {s : List ℚ} (hne : s ≠ []) {q : ℚ} (h0 : 0 ≤ q) :
    0 ≤ qFrac s q := by
  have := qIdx_cast_le hne h0
  unfold qFrac
  linarith

theorem qFrac_lt_one {s : List ℚ} (hne : s ≠ []) {q : ℚ} (h0 : 0 ≤ q) :
    qFrac s q < 1 := by
  have := lt_qIdx_add_one hne (s := s) (q := q) h0
  unfold qFrac
  linarith

theorem interpSorted_ge {s : List ℚ} (hs : List.Sorted (· ≤ ·) s) (hne : s ≠ [])
    {q : ℚ} (h0 : 0 ≤ q) (h1 : q ≤ 1) :
    s.getD (qIdx s q) 0 ≤ interpSorted s q := by
  have hab : s.getD (qIdx s q) 0 ≤ s.getD (qIdx2 s q) 0 :=
    sorted_getD_mono hs (qIdx_le_qIdx2 hne h0 h1) (qIdx2_lt_len hne q)
  have hg := qFrac_nonneg hne (s := s) h0
  unfold interpSorted
  nlinarith

theorem interpSorted_le {s : List ℚ} (hs : List.Sorted (· ≤ ·) s) (hne : s ≠ [])
    {q : ℚ} (h0 : 0 ≤ q) (h1 : q ≤ 1) :
    interpSorted s q ≤ s.getD (qIdx2 s q) 0 := by
  have hab : s.getD (qIdx s q) 0 ≤ s.getD (qIdx2 s q) 0 :=
    sorted_getD_mono hs (qIdx_le_qIdx2 hne h0 h1) (qIdx2_lt_len hne q)
  have hg := qFrac_lt_one hne (s := s) h0
  unfold interpSorted
  nlinarith

theorem interpSorted_mono {s : List ℚ} (hs : List.Sorted (· ≤ ·) s) (hne : s ≠ [])
    {q q' : ℚ} (h0 : 0 ≤ q) (hqq' : q ≤ q') (h1' : q' ≤ 1) :
    interpSorted s q ≤ interpSorted s q' := by
  have h0' : 0 ≤ q' := le_trans h0 hqq'
  have h1 : q ≤ 1 := le_trans hqq' h1'
  have hn1 : (0 : ℚ) ≤ (s.length : ℚ) - 1 := by
    have : (1 : ℚ) ≤ (s.length : ℚ) := by
      exact_mod_cast Nat.one_le_iff_ne_zero.2 (fun h => hne (List.length_eq_zero.1 h))
    linarith
  have hhh : q * ((s.length : ℚ) - 1) ≤ q' * ((s.length : ℚ) - 1) :=
    mul_le_mul_of_nonneg_right hqq' hn1
  have hidx : qIdx s q ≤ qIdx s q' := by
    unfold qIdx
    exact Int.toNat_le_toNat (Int.floor_le_floor hhh)
  rcases lt_or_eq_of_le hidx with hlt | heq
  · -- the two interpolation windows are disjoint; go through the sorted list
    have step1 : interpSorted s q ≤ s.getD (qIdx2 s q) 0 :=
      interpSorted_le hs hne h0 h1
    have step2 : s.getD (qIdx2 s q) 0 ≤ s.getD (qIdx s q') 0 := by
      refine sorted_getD_mono hs ?_ ?_
      · exact le_trans (min_le_left _ _) hlt
      · exact lt_of_le_of_lt (qIdx_le_len_sub_one hne h0' h1')
          (by
            have h1n : 1 ≤ s.length :=
              Nat.one_le_iff_ne_zero.2 (fun h => hne (List.length_eq_zero.1 h))
            omega)
    have step3 : s.getD (qIdx s q') 0 ≤ interpSorted s q' :=
      interpSorted_ge hs hne h0' h1'
    linarith
  · -- same window: the weight grows with q
    have hq2 : qIdx2 s q = qIdx2 s q' := by
      unfold qIdx2
      rw [heq]
    have hab : s.getD (qIdx s q) 0 ≤ s.getD (qIdx2 s q) 0 :=
      sorted_getD_mono hs (qIdx_le_qIdx2 hne h0 h1) (qIdx2_lt_len hne q)
    have hgg : qFrac s q ≤ qFrac s q' := by
      unfold qFrac
      rw [← heq]
      linarith
    unfold interpSorted
    rw [← heq, ← hq2]
    nlinarith [mul_le_mul_of_nonneg_right hgg (sub_nonneg.2 hab)]

theorem dropna_ne_nil_of_mem {s : List (Option ℚ)} {x : ℚ} (hx : some x ∈ s) :
    dropna s ≠ [] := by
  intro h
  have : x ∈ dropna s := List.mem_filterMap.2 ⟨some x, hx, rfl⟩
  rw [h] at this
  cases this

/-- C2: for a series winsorized at the 1%/99% quantiles, every non-missing
output value lies inside the closed interval of the two recorded bounds, and
those bounds are in particular both present (non-missing). -/
theorem winsorize_within_bounds (s : List (Option ℚ)) (i : ℕ) (v : ℚ)
    (hv : (winsorize s (1/100) (99/100)).1[i]? = some (some v)) :
    ∃ lo hi, (winsorize s (1/100) (99/100)).2 = (some lo, some hi) ∧
      lo ≤ v ∧ v ≤ hi := by
  have hmap : (clipSeries s (seriesQuantile s (1/100)) (seriesQuantile s (99/100)))[i]?
      = some (some v) := hv
  unfold clipSeries at hmap
  rw [List.getElem?_map] at hmap
  cases hsi : s[i]? with
  | none => rw [hsi] at hmap; cases hmap
  | some o =>
    rw [hsi] at hmap
    cases o with
    | none => cases hmap
    | some x =>
      have hxv : clipVal (seriesQuantile s (1/100)) (seriesQuantile s (99/100)) x = v := by
        simpa using hmap
      have hmem : some x ∈ s := List.getElem?_mem hsi
      have hdne : dropna s ≠ [] := dropna_ne_nil_of_mem hmem
      set t := List.insertionSort (· ≤ ·) (dropna s) with ht
      have htne : t ≠ [] := by
        intro h
        have := List.length_insertionSort (· ≤ ·) (dropna s)
        rw [← ht, h] at this
        exact hdne (List.length_eq_zero.1 this.symm)
      have hts : List.Sorted (· ≤ ·) t := List.sorted_insertionSort _ _
      obtain ⟨b, L, hbl⟩ := List.exists_cons_of_ne_nil htne
      have hql : seriesQuantile s (1/100) = some (interpSorted t (1/100)) := by
        unfold seriesQuantile quantileSorted
        rw [← ht, hbl]
      have hqh : seriesQuantile s (99/100) = some (interpSorted t (99/100)) := by
        unfold seriesQuantile quantileSorted
        rw [← ht, hbl]
      refine ⟨interpSorted t (1/100), interpSorted t (99/100), ?_, ?_, ?_⟩
      · unfold winsorize
        rw [hql, hqh]
      · -- lo ≤ clipped value
        have hlh : interpSorted t (1/100) ≤ interpSorted t (99/100) :=
          interpSorted_mono hts htne (by norm_num) (by norm_num) (by norm_num)
        rw [← hxv, hql, hqh]
        unfold clipVal
        simp only
        exact le_min hlh (le_max_left _ _)
      · rw [← hxv, hql, hqh]
        unfold clipVal
        simp only
        exact min_le_left _ _

theorem winsorize_within_bounds_witness :
    ∃ lo hi, (winsorize [some 1] (1/100) (99/100)).2 = (some lo, some hi) ∧
      lo ≤ 1 ∧ (1 : ℚ) ≤ hi := by
  refine winsorize_within_bounds [some 1] 0 1 ?_
  show (clipSeries [some 1] (seriesQuantile [some 1] (1/100))
      (seriesQuantile [some 1] (99/100)))[0]? = some (some 1)
  have hd : dropna [some (1 : ℚ)] = [1] := rfl
  have hs : List.insertionSort (· ≤ ·) (dropna [some (1 : ℚ)]) = [1] := rfl
  have hi1 : ∀ q : ℚ, interpSorted [1] q = 1 := by
    intro q
    unfold interpSorted qIdx2 qFrac qIdx
    norm_num
  have hq : ∀ q : ℚ, seriesQuantile [some 1] q = some 1 := by
    intro q
    unfold seriesQuantile
    rw [hs]
    unfold quantileSorted
    rw [hi1]
  rw [hq, hq]
  simp [clipSeries, clipVal]

/-! ### Dataframe access lemmas -/

theorem getCol?_isSome_of_mem {df : DF} {n : String} (h : n ∈ df.names) :
    ∃ c, df.getCol? n = some c := by
  unfold DF.names at h
  obtain ⟨c, hc, rfl⟩ := List.mem_map.1 h
  unfold DF.getCol?
  have : (df.cols.find? (fun c0 => c0.name == c.name)).isSome := by
    rw [List.find?_isSome]
    exact ⟨c, hc, by simp⟩
  exact Option.isSome_iff_exists.1 this

theorem getCol?_eq_none_of_not_mem {df : DF} {n : String} (h : n ∉ df.names) :
    df.getCol? n = none := by
  unfold DF.getCol?
  rw [List.find?_eq_none]
  intro c hc hp
  exact h (List.mem_map.2 ⟨c, hc, by simpa using hp⟩)

theorem getCol?_mem {df : DF} {n : String} {c : Col} (h : df.getCol? n = some c) :
    c ∈ df.cols ∧ c.name = n := by
  refine ⟨List.mem_of_find?_eq_some h, ?_⟩
  have := List.find?_some h
  simpa using this

/-! ### Rate by category (C7, C9) -/

/-- C7: when both the TARGET column and the grouping column are present, the
rate-by-category table has exactly one row per distinct value of the grouping
column (missing values forming their own group), and its `count` column sums
to the dataframe's row count. -/
theorem by_category_rate_partition (df : DF) (col : String) (hwf : df.Wf)
    (ht : TARGET ∈ df.names) (hc : col ∈ df.names) :
    ∃ ccol, df.getCol? col = some ccol ∧
      ((by_category_rate df col).rows.map (fun r => r.1)).Perm ccol.vals.dedup ∧
      ((by_category_rate df col).rows.map (fun r => r.2.2)).sum = df.nrows := by
  obtain ⟨tcol, htc⟩ := getCol?_isSome_of_mem ht
  obtain ⟨ccol, hcc⟩ := getCol?_isSome_of_mem hc
  have hlt : tcol.vals.length = df.nrows := hwf.2 tcol (getCol?_mem htc).1
  have hlc : ccol.vals.length = df.nrows := hwf.2 ccol (getCol?_mem hcc).1
  have hfst : (ccol.vals.zip tcol.vals).map Prod.fst = ccol.vals :=
    List.map_fst_zip _ _ (by rw [hlt, hlc])
  have hb : by_category_rate df col =
      ⟨[col, "Default_%", "count"],
        List.insertionSort (fun a b => rateDescB a b = true)
          (ccol.vals.dedup.map (fun k =>
            (k, groupRate (ccol.vals.zip tcol.vals) k,
              groupCount (ccol.vals.zip tcol.vals) k)))⟩ := by
    unfold by_category_rate
    rw [htc, hcc]
  have hgc : ∀ k, groupCount (ccol.vals.zip tcol.vals) k = ccol.vals.count k := by
    intro k
    unfold groupCount
    rw [← List.countP_eq_length_filter]
    have h1 : List.countP (fun p => p.1 == k) (ccol.vals.zip tcol.vals) =
        List.countP (fun x => x == k) ((ccol.vals.zip tcol.vals).map Prod.fst) := by
      rw [List.countP_map]
      rfl
    rw [h1, hfst, List.count]
  have hperm : (List.insertionSort (fun a b => rateDescB a b = true)
      (ccol.vals.dedup.map (fun k =>
        (k, groupRate (ccol.vals.zip tcol.vals) k,
          groupCount (ccol.vals.zip tcol.vals) k)))).Perm
      (ccol.vals.dedup.map (fun k =>
        (k, groupRate (ccol.vals.zip tcol.vals) k,
          groupCount (ccol.vals.zip tcol.vals) k))) :=
    List.perm_insertionSort _ _
  refine ⟨ccol, hcc, ?_, ?_⟩
  · rw [hb]
    have h2 := hperm.map (fun r : Val × Option ℚ × ℕ => r.1)
    refine h2.trans ?_
    rw [List.map_map]
    have : ((fun r : Val × Option ℚ × ℕ => r.1) ∘ (fun k =>
        (k, groupRate (ccol.vals.zip tcol.vals) k,
          groupCount (ccol.vals.zip tcol.vals) k))) = id := rfl
    rw [this, List.map_id]
  · rw [hb]
    have h2 := (hperm.map (fun r : Val × Option ℚ × ℕ => r.2.2)).sum_eq
    rw [h2, List.map_map]
    have h3 : ((fun r : Val × Option ℚ × ℕ => r.2.2) ∘ (fun k =>
        (k, groupRate (ccol.vals.zip tcol.vals) k,
          groupCount (ccol.vals.zip tcol.vals) k))) =
        (fun k => groupCount (ccol.vals.zip tcol.vals) k) := rfl
    rw [h3]
    have h4 : ccol.vals.dedup.map (fun k => groupCount (ccol.vals.zip tcol.vals) k) =
        ccol.vals.dedup.map (fun k => ccol.vals.count k) :=
      List.map_congr_left (fun k _ => hgc k)
    rw [h4, List.sum_map_count_dedup_eq_length, hlc]

theorem by_category_rate_partition_witness :
    ∃ ccol,
      (DF.mk [⟨"TARGET", Dtype.numeric, [Val.num 1, Val.num 0]⟩,
        ⟨"G", Dtype.category, [Val.str "M", Val.str "F"]⟩]).getCol? "G" = some ccol ∧
      ((by_category_rate (DF.mk [⟨"TARGET", Dtype.numeric, [Val.num 1, Val.num 0]⟩,
        ⟨"G", Dtype.category, [Val.str "M", Val.str "F"]⟩]) "G").rows.map
          (fun r => r.1)).Perm ccol.vals.dedup ∧
      ((by_category_rate (DF.mk [⟨"TARGET", Dtype.numeric, [Val.num 1, Val.num 0]⟩,
        ⟨"G", Dtype.category, [Val.str "M", Val.str "F"]⟩]) "G").rows.map
          (fun r => r.2.2)).sum =
        (DF.mk [⟨"TARGET", Dtype.numeric, [Val.num 1, Val.num 0]⟩,
          ⟨"G", Dtype.category, [Val.str "M", Val.str "F"]⟩]).nrows :=
  by_category_rate_partition _ "G" (by constructor <;> decide) (by decide) (by decide)

/-- C9: when the TARGET column or the grouping column is absent, the result
is the empty table with headers `[col, "Default_%", "count"]` (no failure). -/
theorem by_category_rate_absent (df : DF) (col : String)
    (h : TARGET ∉ df.names ∨ col ∉ df.names) :
    by_category_rate df col = ⟨[col, "Default_%", "count"], []⟩ := by
  unfold by_category_rate
  rcases h with h1 | h1
  · rw [getCol?_eq_none_of_not_mem h1]
  · rw [getCol?_eq_none_of_not_mem h1]
    cases df.getCol? TARGET <;> rfl

theorem by_category_rate_absent_witness :
    by_category_rate (DF.mk [⟨"X", Dtype.numeric, [Val.num 5]⟩]) "CODE_GENDER" =
      ⟨["CODE_GENDER", "Default_%", "count"], []⟩ :=
  by_category_rate_absent _ "CODE_GENDER" (Or.inl (by decide))

/-! ### Correlation column selection (C6) -/

theorem sum_const_list {l : List ℚ} {a : ℚ} (h : ∀ x ∈ l, x = a) :
    l.sum = (l.length : ℚ) * a := by
  induction l with
  | nil => simp
  | cons b t ih =>
    have hb : b = a := h b (List.mem_cons_self _ _)
    have ht : ∀ x ∈ t, x = a := fun x hx => h x (List.mem_cons_of_mem _ hx)
    rw [List.sum_cons, hb, ih ht, List.length_cons]
    push_cast
    ring

theorem sqDev_eq_zero_of_const {l : List ℚ}
    (h : ∀ x ∈ l, ∀ y ∈ l, x = y) : sqDev l = 0 := by
  rcases l with _ | ⟨a, t⟩
  · rfl
  · have ha : ∀ x ∈ (a :: t), x = a :=
      fun x hx => h x hx a (List.mem_cons_self _ _)
    unfold sqDev
    apply List.sum_eq_zero
    intro y hy
    obtain ⟨x, hx, rfl⟩ := List.mem_map.1 hy
    have hlen : (((a :: t).length : ℕ) : ℚ) ≠ 0 := by
      rw [List.length_cons]
      push_cast
      positivity
    rw [ha x hx, sum_const_list ha, mul_comm, mul_div_assoc, div_self hlen]
    ring

theorem corrKeep_mem {df : DF} {c : Col} :
    c ∈ corrKeep df ↔ c ∈ df.cols ∧ c.dtype = Dtype.numeric ∧
      2 < (colNums c).length ∧ 0 < sqDev (colNums c) := by
  unfold corrKeep
  rw [List.mem_filter, List.mem_filter]
  constructor
  · rintro ⟨⟨hm, hd⟩, hc⟩
    rw [Bool.and_eq_true] at hc
    exact ⟨hm, by simpa using hd, of_decide_eq_true hc.1, of_decide_eq_true hc.2⟩
  · rintro ⟨hm, hd, h2, h3⟩
    exact ⟨⟨hm, by simpa using hd⟩, by simp [h2, h3]⟩

/-- C6: a column name appears among the correlation matrix's columns only if
that column is numeric with more than 2 non-missing values and positive
variance; in particular a constant numeric column never appears; and when no
column qualifies both the matrix and the TARGET-correlation vector are
empty — for any correlation method. -/
theorem compute_corr_selection (df : DF)
    (method : List (Option ℚ) → List (Option ℚ) → ℚ)
    (hnd : df.names.Nodup) :
    (∀ name, name ∈ ((compute_corr df method).1.map Prod.fst) →
      ∃ c ∈ df.cols, c.name = name ∧ c.dtype = Dtype.numeric ∧
        2 < (colNums c).length ∧ 0 < sqDev (colNums c)) ∧
    (∀ c ∈ df.cols, c.dtype = Dtype.numeric →
      (∀ x ∈ colNums c, ∀ y ∈ colNums c, x = y) →
      c.name ∉ ((compute_corr df method).1.map Prod.fst)) ∧
    (corrKeep df = [] → compute_corr df method = ([], [])) := by
  have hsel : ∀ name, name ∈ ((compute_corr df method).1.map Prod.fst) →
      ∃ c ∈ df.cols, c.name = name ∧ c.dtype = Dtype.numeric ∧
        2 < (colNums c).length ∧ 0 < sqDev (colNums c) := by
    intro name hname
    by_cases hk : (corrKeep df).isEmpty
    · rw [compute_corr, if_pos hk] at hname
      simp at hname
    · rw [compute_corr, if_neg hk] at hname
      simp only [List.map_map, List.mem_map] at hname
      obtain ⟨c, hc, hcn⟩ := hname
      obtain ⟨hm, hd, h2, h3⟩ := corrKeep_mem.1 hc
      exact ⟨c, hm, hcn, hd, h2, h3⟩
  refine ⟨hsel, ?_, ?_⟩
  · intro c hc hnum hconst hmem
    obtain ⟨c', hm', hn', _, _, hvar'⟩ := hsel c.name hmem
    have hcc : c' = c := by
      have hinj := List.inj_on_of_nodup_map (f := Col.name) hnd
      exact hinj hm' hc hn'
    rw [hcc] at hvar'
    rw [sqDev_eq_zero_of_const hconst] at hvar'
    exact lt_irrefl 0 hvar'
  · intro hk
    rw [compute_corr, if_pos (by rw [hk]; rfl)]

theorem compute_corr_selection_witness :
    compute_corr (DF.mk [⟨"C", Dtype.numeric, [Val.num 5, Val.num 5, Val.num 5]⟩])
      (fun _ _ => 0) = ([], []) := by
  refine (compute_corr_selection _ (fun _ _ => 0) (by decide)).2.2 ?_
  have : sqDev (colNums ⟨"C", Dtype.numeric, [Val.num 5, Val.num 5, Val.num 5]⟩) = 0 :=
    sqDev_eq_zero_of_const (by decide)
  unfold corrKeep
  rw [List.filter_eq_nil_iff]
  intro c hc
  rw [List.mem_filter] at hc
  rcases hc with ⟨hm, _⟩
  have hce : c = ⟨"C", Dtype.numeric, [Val.num 5, Val.num 5, Val.num 5]⟩ := by
    simpa using hm
  rw [hce]
  simp [this]

/-! ### Filter engine round-trip (C4) -/

theorem foldl_min_spec (t : List ℚ) (x : ℚ) :
    t.foldl min x ≤ x ∧ ∀ b ∈ t, t.foldl min x ≤ b := by
  induction t generalizing x with
  | nil => exact ⟨le_refl _, by simp⟩
  | cons y s ih =>
    have h1 := (ih (min x y)).1
    have h2 := (ih (min x y)).2
    refine ⟨le_trans h1 (min_le_left _ _), ?_⟩
    intro b hb
    rcases List.mem_cons.1 hb with rfl | hb
    · exact le_trans h1 (min_le_right _ _)
    · exact h2 b hb

theorem foldl_max_spec (t : List ℚ) (x : ℚ) :
    x ≤ t.foldl max x ∧ ∀ b ∈ t, b ≤ t.foldl max x := by
  induction t generalizing x with
  | nil => exact ⟨le_refl _, by simp⟩
  | cons y s ih =>
    have h1 := (ih (max x y)).1
    have h2 := (ih (max x y)).2
    refine ⟨le_trans (le_max_left _ _) h1, ?_⟩
    intro b hb
    rcases List.mem_cons.1 hb with rfl | hb
    · exact le_trans (le_max_right _ _) h1
    · exact h2 b hb

theorem min?_le_of_mem {l : List ℚ} {a b : ℚ} (h : l.min? = some a)
    (hb : b ∈ l) : a ≤ b := by
  cases l with
  | nil => cases hb
  | cons x t =>
    have ha : a = t.foldl min x := by
      have : (x :: t).min? = some (t.foldl min x) := by simp [List.min?]
      rw [this] at h
      exact (Option.some_inj.1 h).symm
    subst ha
    rcases List.mem_cons.1 hb with rfl | hb
    · exact (foldl_min_spec t b).1
    · exact (foldl_min_spec t x).2 b hb

theorem le_max?_of_mem {l : List ℚ} {a b : ℚ} (h : l.max? = some a)
    (hb : b ∈ l) : b ≤ a := by
  cases l with
  | nil => cases hb
  | cons x t =>
    have ha : a = t.foldl max x := by
      have : (x :: t).max? = some (t.foldl max x) := by simp [List.max?]
      rw [this] at h
      exact (Option.some_inj.1 h).symm
    subst ha
    rcases List.mem_cons.1 hb with rfl | hb
    · exact (foldl_max_spec t b).1
    · exact (foldl_max_spec t x).2 b hb

theorem maskFilter_replicate_true {α : Type} (xs : List α) :
    maskFilter xs (List.replicate xs.length true) = xs := by
  induction xs with
  | nil => rfl
  | cons x t ih =>
    simpa [maskFilter, List.replicate] using ih

theorem filterRows_all_true (df : DF) (k : ℕ)
    (hlen : ∀ c ∈ df.cols, c.vals.length = k) :
    df.filterRows (List.replicate k true) = df := by
  cases df with
  | mk cols =>
    unfold DF.filterRows
    congr 1
    have hid : ∀ c ∈ cols,
        ({ c with vals := maskFilter c.vals (List.replicate k true) } : Col) = c := by
      intro c hc
      have h1 : c.vals.length = k := hlen c hc
      rw [← h1, maskFilter_replicate_true]
    calc cols.map (fun c => { c with vals := maskFilter c.vals (List.replicate k true) })
        = cols.map id := List.map_congr_left hid
      _ = cols := List.map_id _

theorem filterRows_map_true (df : DF) (c : Col) (f : Val → Bool)
    (hc : ∀ c' ∈ df.cols, c'.vals.length = c.vals.length)
    (hf : ∀ v ∈ c.vals, f v = true) :
    df.filterRows (c.vals.map f) = df := by
  have hm : c.vals.map f = List.replicate c.vals.length true :=
    List.eq_replicate_iff.2 ⟨by simp, by
      intro b hb
      obtain ⟨v, hv, rfl⟩ := List.mem_map.1 hb
      exact hf v hv⟩
  rw [hm]
  exact filterRows_all_true df _ hc

theorem wf_len_eq {df : DF} (hwf : df.Wf) {n : String} {c : Col}
    (h : df.getCol? n = some c) :
    ∀ c' ∈ df.cols, c'.vals.length = c.vals.length := by
  intro c' hc'
  rw [hwf.2 c' hc', hwf.2 c (getCol?_mem h).1]

theorem filterCatDefault_id (df : DF) (n : String) (hwf : df.Wf)
    (hna : ∀ c, df.getCol? n = some c → Val.na ∉ c.vals) :
    filterCatDefault df n = df := by
  unfold filterCatDefault
  cases hg : df.getCol? n with
  | none => rfl
  | some c =>
    simp only
    by_cases hsel : (obsVals c).isEmpty
    · rw [if_pos hsel]
    · rw [if_neg hsel]
      refine filterRows_map_true df c _ (wf_len_eq hwf hg) ?_
      intro v hv
      have hvna : (v != Val.na) = true := by
        have : v ≠ Val.na := fun h => hna c hg (h ▸ hv)
        simpa using this
      have hmem : v ∈ obsVals c :=
        List.mem_dedup.2 (List.mem_filter.2 ⟨hv, hvna⟩)
      simpa [List.contains] using hmem

theorem filterAgeDefault_id (df : DF) (hwf : df.Wf)
    (hnum : ∀ c, df.getCol? "AGE_YEARS" = some c →
      ∀ v ∈ c.vals, ∃ q, v = Val.num q) :
    filterAgeDefault df = df := by
  unfold filterAgeDefault
  cases hg : df.getCol? "AGE_YEARS" with
  | none => rfl
  | some c =>
    simp only
    cases hmn : (colNums c).min? with
    | none =>
      have hnil : colNums c = [] := List.min?_eq_none_iff.1 hmn
      have hvals : c.vals = [] := by
        cases hv : c.vals with
        | nil => rfl
        | cons v t =>
          obtain ⟨q, hq⟩ := hnum c hg v (by rw [hv]; exact List.mem_cons_self _ _)
          have : q ∈ colNums c := List.mem_filterMap.2 ⟨v, by
            rw [hv]; exact List.mem_cons_self _ _, by rw [hq]; rfl⟩
          rw [hnil] at this
          cases this
      cases hmx : (colNums c).max? <;>
        · rw [hvals]
          have h0 : ∀ c' ∈ df.cols, c'.vals.length = 0 := by
            intro c' hc'
            have := wf_len_eq hwf hg c' hc'
            rwa [hvals] at this
          simpa using filterRows_all_true df 0 h0
    | some mn =>
      cases hmx : (colNums c).max? with
      | none =>
        have hnil : colNums c = [] := List.max?_eq_none_iff.1 hmx
        rw [hnil] at hmn
        cases hmn
      | some mx =>
        refine filterRows_map_true df c _ (wf_len_eq hwf hg) ?_
        intro v hv
        obtain ⟨q, rfl⟩ := hnum c hg v hv
        have hqmem : q ∈ colNums c := List.mem_filterMap.2 ⟨Val.num q, hv, rfl⟩
        have h1 : (⌊mn⌋ : ℚ) ≤ q := le_trans (Int.floor_le mn) (min?_le_of_mem hmn hqmem)
        have h2 : q ≤ (⌈mx⌉ : ℚ) := le_trans (le_max?_of_mem hmx hqmem) (Int.le_ceil mx)
        simp [Val.num?, h1, h2]

theorem filterIncomeBracketDefault_id (df : DF) (hwf : df.Wf)
    (hbr : ∀ c, df.getCol? "INCOME_BRACKET" = some c → ∀ v ∈ c.vals,
      v = Val.str "Low" ∨ v = Val.str "Mid" ∨ v = Val.str "High") :
    filterIncomeBracketDefault df = df := by
  unfold filterIncomeBracketDefault
  cases hg : df.getCol? "INCOME_BRACKET" with
  | none => rfl
  | some c =>
    simp only
    by_cases hp : (bracketPref.filter (fun b => (obsVals c).contains (Val.str b))).isEmpty
    · rw [if_pos hp]
    · rw [if_neg hp]
      refine filterRows_map_true df c _ (wf_len_eq hwf hg) ?_
      intro v hv
      have hvb : ∃ b, v = Val.str b ∧ b ∈ bracketPref := by
        rcases hbr c hg v hv with rfl | rfl | rfl
        · exact ⟨"Low", rfl, by simp [bracketPref]⟩
        · exact ⟨"Mid", rfl, by simp [bracketPref]⟩
        · exact ⟨"High", rfl, by simp [bracketPref]⟩
      obtain ⟨b, rfl, hbp⟩ := hvb
      have hobs : Val.str b ∈ obsVals c :=
        List.mem_dedup.2 (List.mem_filter.2 ⟨hv, by simp⟩)
      have hpresent : b ∈ bracketPref.filter (fun b => (obsVals c).contains (Val.str b)) :=
        List.mem_filter.2 ⟨hbp, by simpa [List.contains] using hobs⟩
      rw [List.any_eq_true]
      exact ⟨b, hpresent, by simp⟩

theorem filterEmploymentDefault_id (df : DF) (hwf : df.Wf)
    (hemp : ∀ c, df.getCol? "EMPLOYMENT_YEARS" = some c → ∀ v ∈ c.vals,
      v = Val.na ∨ ∃ q, v = Val.num q) :
    filterEmploymentDefault df = df := by
  unfold filterEmploymentDefault
  cases hg : df.getCol? "EMPLOYMENT_YEARS" with
  | none => rfl
  | some c =>
    simp only
    refine filterRows_map_true df c _ (wf_len_eq hwf hg) ?_
    intro v hv
    rcases hemp c hg v hv with rfl | ⟨q, rfl⟩
    · rfl
    · have hqmem : q ∈ colNums c := List.mem_filterMap.2 ⟨Val.num q, hv, rfl⟩
      have hne : colNums c ≠ [] := fun h => by
        rw [h] at hqmem
        cases hqmem
      cases hmn : (colNums c).min? with
      | none => exact absurd (List.min?_eq_none_iff.1 hmn) hne
      | some mn =>
        cases hmx : (colNums c).max? with
        | none => exact absurd (List.max?_eq_none_iff.1 hmx) hne
        | some mx =>
          have h1 : (⌊mn⌋ : ℚ) ≤ q :=
            le_trans (Int.floor_le mn) (min?_le_of_mem hmn hqmem)
          have h2 : q ≤ (⌈mx⌉ : ℚ) :=
            le_trans (le_max?_of_mem hmx hqmem) (Int.le_ceil mx)
          simp [hmn, hmx, h1, h2]

/-- C4: on a Cleaned Dataset — well-formed, with the four categorical filter
columns free of missing values, the age column numeric and complete, the
income-bracket column drawn from `{Low, Mid, High}`, and employment tenure
numeric-or-missing, exactly the invariants the preprocessing pipeline
establishes — running the filter engine with every control at its default
value returns the input unchanged: same rows, same content. -/
theorem filter_default_roundtrip (df : DF) (hwf : df.Wf)
    (hg : ∀ c, df.getCol? "CODE_GENDER" = some c → Val.na ∉ c.vals)
    (he : ∀ c, df.getCol? "NAME_EDUCATION_TYPE" = some c → Val.na ∉ c.vals)
    (hf : ∀ c, df.getCol? "NAME_FAMILY_STATUS" = some c → Val.na ∉ c.vals)
    (hh : ∀ c, df.getCol? "NAME_HOUSING_TYPE" = some c → Val.na ∉ c.vals)
    (ha : ∀ c, df.getCol? "AGE_YEARS" = some c → ∀ v ∈ c.vals, ∃ q, v = Val.num q)
    (hb : ∀ c, df.getCol? "INCOME_BRACKET" = some c → ∀ v ∈ c.vals,
      v = Val.str "Low" ∨ v = Val.str "Mid" ∨ v = Val.str "High")
    (hemp : ∀ c, df.getCol? "EMPLOYMENT_YEARS" = some c → ∀ v ∈ c.vals,
      v = Val.na ∨ ∃ q, v = Val.num q) :
    get_filtered_df_default df = df := by
  unfold get_filtered_df_default
  simp only
  rw [filterCatDefault_id df _ hwf hg, filterCatDefault_id df _ hwf he,
    filterCatDefault_id df _ hwf hf, filterCatDefault_id df _ hwf hh,
    filterAgeDefault_id df hwf ha, filterIncomeBracketDefault_id df hwf hb,
    filterEmploymentDefault_id df hwf hemp]

theorem filter_default_roundtrip_witness :
    get_filtered_df_default dfSmall = dfSmall := by
  refine filter_default_roundtrip dfSmall (by constructor <;> decide)
    ?_ ?_ ?_ ?_ ?_ ?_ ?_
  · intro c hc
    rw [show dfSmall.getCol? "CODE_GENDER" =
      some ⟨"CODE_GENDER", Dtype.category, [Val.str "M", Val.str "F"]⟩ by decide] at hc
    cases hc
    decide
  · intro c hc
    rw [show dfSmall.getCol? "NAME_EDUCATION_TYPE" = none by decide] at hc
    cases hc
  · intro c hc
    rw [show dfSmall.getCol? "NAME_FAMILY_STATUS" = none by decide] at hc
    cases hc
  · intro c hc
    rw [show dfSmall.getCol? "NAME_HOUSING_TYPE" = none by decide] at hc
    cases hc
  · intro c hc
    rw [show dfSmall.getCol? "AGE_YEARS" =
      some ⟨"AGE_YEARS", Dtype.numeric, [Val.num 30, Val.num 40]⟩ by decide] at hc
    cases hc
    intro v hv
    simp only [List.mem_cons, List.not_mem_nil, or_false] at hv
    rcases hv with rfl | rfl
    · exact ⟨30, rfl⟩
    · exact ⟨40, rfl⟩
  · intro c hc
    rw [show dfSmall.getCol? "INCOME_BRACKET" =
      some ⟨"INCOME_BRACKET", Dtype.category, [Val.str "Low", Val.str "High"]⟩ by decide] at hc
    cases hc
    intro v hv
    simp only [List.mem_cons, List.not_mem_nil, or_false] at hv
    rcases hv with rfl | rfl
    · exact Or.inl rfl
    · exact Or.inr (Or.inr rfl)
  · intro c hc
    rw [show dfSmall.getCol? "EMPLOYMENT_YEARS" =
      some ⟨"EMPLOYMENT_YEARS", Dtype.numeric, [Val.na, Val.num 5]⟩ by decide] at hc
    cases hc
    intro v hv
    simp only [List.mem_cons, List.not_mem_nil, or_false] at hv
    rcases hv with rfl | rfl
    · exact Or.inl rfl
    · exact Or.inr ⟨5, rfl⟩

/-! ### Pipeline column preservation (C8, C10) -/

theorem getCol?_modifyCol_ne (df : DF) (m : String) (f : Col → Dtype × List Val)
    {n : String} (h : n ≠ m) :
    (df.modifyCol m f).getCol? n = df.getCol? n := by
  cases df with
  | mk cols =>
    unfold DF.modifyCol DF.getCol?
    simp only
    induction cols with
    | nil => rfl
    | cons c t ih =>
      by_cases hc : c.name = m
      · have hb : (c.name == n) = false := by
          simp only [beq_eq_false_iff_ne, ne_eq]
          intro he
          exact h (he.symm.trans hc)
        simp only [List.map_cons, if_pos hc, List.find?]
        rw [show (({ name := c.name, dtype := (f c).1, vals := (f c).2 } : Col).name == n)
          = (c.name == n) from rfl, hb]
        simpa using ih
      · simp only [List.map_cons, if_neg hc, List.find?]
        cases hb : (c.name == n) with
        | true => rfl
        | false => simpa using ih

theorem names_modifyCol (df : DF) (m : String) (f : Col → Dtype × List Val) :
    (df.modifyCol m f).names = df.names := by
  cases df with
  | mk cols =>
    unfold DF.modifyCol DF.names
    simp only [List.map_map]
    refine List.map_congr_left ?_
    intro c _
    by_cases hc : c.name = m <;> simp [Function.comp, hc]

theorem getCol?_setCol_ne (df : DF) (m : String) (d : Dtype) (vs : List Val)
    {n : String} (h : n ≠ m) :
    (df.setCol m d vs).getCol? n = df.getCol? n := by
  unfold DF.setCol
  by_cases hc : df.cols.any (fun c => c.name == m)
  · rw [if_pos hc]
    exact getCol?_modifyCol_ne df m _ h
  · rw [if_neg hc]
    unfold DF.getCol?
    simp only
    rw [List.find?_append]
    cases hf : df.cols.find? (fun c => c.name == n) with
    | some c => rfl
    | none =>
      simp only [Option.none_or]
      have : ((⟨m, d, vs⟩ : Col).name == n) = false := by
        simp only [beq_eq_false_iff_ne, ne_eq]
        exact fun he => h he.symm
      simp [List.find?, this]

theorem mem_names_setCol {df : DF} {n : String} (m : String) (d : Dtype)
    (vs : List Val) (h : n ∈ df.names) : n ∈ (df.setCol m d vs).names := by
  unfold DF.setCol
  by_cases hc : df.cols.any (fun c => c.name == m)
  · rw [if_pos hc, names_modifyCol]
    exact h
  · rw [if_neg hc]
    unfold DF.names at h ⊢
    simp only [List.map_append]
    exact List.mem_append_left _ h

theorem getCol?_dropColumns (df : DF) (ns : List String) {n : String}
    (h : n ∉ ns) : (df.dropColumns ns).getCol? n = df.getCol? n := by
  cases df with
  | mk cols =>
    unfold DF.dropColumns DF.getCol?
    simp only
    induction cols with
    | nil => rfl
    | cons c t ih =>
      by_cases hm : c.name ∈ ns
      · have hd : (decide (c.name ∉ ns)) = false := by simp [hm]
        have hb : (c.name == n) = false := by
          simp only [beq_eq_false_iff_ne, ne_eq]
          intro he
          exact h (he ▸ hm)
        rw [List.filter_cons, hd]
        simp only [List.find?, hb]
        simpa using ih
      · have hd : (decide (c.name ∉ ns)) = true := by simp [hm]
        rw [List.filter_cons, hd]
        simp only [List.find?]
        cases hb : (c.name == n) with
        | true => rfl
        | false => simpa using ih

theorem mem_names_dropColumns {df : DF} {n : String} {ns : List String}
    (hmem : n ∈ df.names) (h : n ∉ ns) : n ∈ (df.dropColumns ns).names := by
  unfold DF.names at hmem ⊢
  obtain ⟨c, hc, rfl⟩ := List.mem_map.1 hmem
  unfold DF.dropColumns
  exact List.mem_map.2 ⟨c, List.mem_filter.2 ⟨hc, by simpa using h⟩, rfl⟩

theorem getCol?_foldl_modify (ms : List String) (F : Col → Dtype × List Val)
    {n : String} (h : n ∉ ms) :
    ∀ df : DF, (ms.foldl (fun d c => d.modifyCol c F) df).getCol? n = df.getCol? n := by
  induction ms with
  | nil => intro df; rfl
  | cons m t ih =>
    intro df
    have hn : n ≠ m := fun he => h (he ▸ List.mem_cons_self _ _)
    have ht : n ∉ t := fun he => h (List.mem_cons_of_mem _ he)
    simp only [List.foldl_cons]
    rw [ih ht, getCol?_modifyCol_ne df m F hn]

theorem names_foldl_modify (ms : List String) (F : Col → Dtype × List Val) :
    ∀ df : DF, (ms.foldl (fun d c => d.modifyCol c F) df).names = df.names := by
  induction ms with
  | nil => intro df; rfl
  | cons m t ih =>
    intro df
    simp only [List.foldl_cons]
    rw [ih, names_modifyCol]

theorem mem_objColsOf {df : DF} {n : String} (h : n ∈ objColsOf df) :
    n ∉ ID_COLS ∧ n ≠ TARGET := by
  unfold objColsOf at h
  obtain ⟨c, hc, rfl⟩ := List.mem_map.1 h
  have hcond := (List.mem_filter.1 hc).2
  rw [Bool.and_eq_true, Bool.and_eq_true] at hcond
  exact ⟨of_decide_eq_true hcond.1.2, by simpa using hcond.2⟩

theorem mem_numColsOf {df : DF} {n : String} (h : n ∈ numColsOf df) :
    n ∉ ID_COLS ∧ n ≠ TARGET := by
  unfold numColsOf at h
  obtain ⟨c, hc, rfl⟩ := List.mem_map.1 h
  have hcond := (List.mem_filter.1 hc).2
  rw [Bool.and_eq_true, Bool.and_eq_true] at hcond
  exact ⟨of_decide_eq_true hcond.1.2, by simpa using hcond.2⟩

theorem mem_catColsOf {df : DF} {n : String} (h : n ∈ catColsOf df) :
    n ∉ ID_COLS ∧ n ≠ TARGET := by
  unfold catColsOf at h
  obtain ⟨c, hc, rfl⟩ := List.mem_map.1 h
  have hcond := (List.mem_filter.1 hc).2
  rw [Bool.and_eq_true, Bool.and_eq_true] at hcond
  exact ⟨of_decide_eq_true hcond.1.2, by simpa using hcond.2⟩

theorem mem_dropColsOf {df : DF} {n : String} (h : n ∈ dropColsOf df) :
    n ∉ ID_COLS ∧ n ≠ TARGET := by
  unfold dropColsOf at h
  have hcond := (List.mem_filter.1 h).2
  rw [Bool.and_eq_true] at hcond
  exact ⟨of_decide_eq_true hcond.1, by simpa using hcond.2⟩

theorem mem_winsorFieldsOf {df : DF} {n : String} (h : n ∈ winsorFieldsOf df) :
    n ∉ ID_COLS ∧ n ≠ TARGET := by
  have h1 := (List.mem_filter.1 h).1
  simp only [List.mem_cons, List.not_mem_nil, or_false] at h1
  rcases h1 with rfl | rfl | rfl | rfl | rfl | rfl <;>
    exact ⟨by decide, by decide⟩

theorem preprocess_fst (df : DF) :
    (preprocess_application_train df).1 = stage9of df := by
  simp only [preprocess_application_train]

theorem mem_names_of_getCol? {df : DF} {n : String} {c : Col}
    (h : df.getCol? n = some c) : n ∈ df.names := by
  obtain ⟨hm, hn⟩ := getCol?_mem h
  exact List.mem_map.2 ⟨c, hm, hn⟩

theorem getCol?_stageIds {df : DF} {n : String} (h : n ∉ ID_COLS) :
    (stageIds df).getCol? n = df.getCol? n :=
  getCol?_foldl_modify ID_COLS astypeStrCol h df

theorem getCol?_stageObjCat {df : DF} {n : String} (h : n ∈ ID_COLS ∨ n = TARGET) :
    (stageObjCat df).getCol? n = df.getCol? n := by
  refine getCol?_foldl_modify _ _ ?_ df
  intro hmem
  rcases mem_objColsOf hmem with ⟨hid, ht⟩
  rcases h with h | h
  exacts [hid h, ht h]

theorem getCol?_stageAge {df : DF} {n : String} (h : n ≠ "AGE_YEARS") :
    (stageAge df).getCol? n = df.getCol? n := by
  unfold stageAge
  split
  · exact getCol?_setCol_ne df _ _ _ h
  · rfl

theorem getCol?_stageEmployment {df : DF} {n : String}
    (h1 : n ≠ "DAYS_EMPLOYED") (h2 : n ≠ "EMPLOYMENT_YEARS") :
    (stageEmployment df).getCol? n = df.getCol? n := by
  unfold stageEmployment
  split
  · simp only
    rw [getCol?_setCol_ne _ _ _ _ h2, getCol?_modifyCol_ne _ _ _ h1]
  · rfl

theorem getCol?_stageDTI {df : DF} {n : String} (h : n ≠ "DTI") :
    (stageDTI df).getCol? n = df.getCol? n := by
  unfold stageDTI
  split
  · exact getCol?_setCol_ne df _ _ _ h
  · rfl

theorem getCol?_stageLTI {df : DF} {n : String} (h : n ≠ "LTI") :
    (stageLTI df).getCol? n = df.getCol? n := by
  unfold stageLTI
  split
  · exact getCol?_setCol_ne df _ _ _ h
  · rfl

theorem getCol?_stageATC {df : DF} {n : String} (h : n ≠ "ANNUITY_TO_CREDIT") :
    (stageATC df).getCol? n = df.getCol? n := by
  unfold stageATC
  split
  · exact getCol?_setCol_ne df _ _ _ h
  · rfl

theorem getCol?_stageDrop {df : DF} {n : String} (h : n ∈ ID_COLS ∨ n = TARGET) :
    (stageDrop df).getCol? n = df.getCol? n := by
  unfold stageDrop
  refine getCol?_dropColumns _ _ ?_
  intro hmem
  rcases mem_dropColsOf hmem with ⟨hid, ht⟩
  rcases h with h | h
  exacts [hid h, ht h]

theorem getCol?_stageIncomeBracket {df : DF} {n : String}
    (h : n ≠ "INCOME_BRACKET") :
    (stageIncomeBracket df).getCol? n = df.getCol? n := by
  unfold stageIncomeBracket
  split
  · exact getCol?_setCol_ne df _ _ _ h
  · rfl

theorem mem_names_stageAge {df : DF} {n : String} (h : n ∈ df.names) :
    n ∈ (stageAge df).names := by
  unfold stageAge
  split
  · exact mem_names_setCol _ _ _ h
  · exact h

theorem mem_names_stageEmployment {df : DF} {n : String} (h : n ∈ df.names) :
    n ∈ (stageEmployment df).names := by
  unfold stageEmployment
  split
  · simp only
    refine mem_names_setCol _ _ _ ?_
    rw [names_modifyCol]
    exact h
  · exact h

theorem mem_names_stageDTI {df : DF} {n : String} (h : n ∈ df.names) :
    n ∈ (stageDTI df).names := by
  unfold stageDTI
  split
  · exact mem_names_setCol _ _ _ h
  · exact h

theorem mem_names_stageLTI {df : DF} {n : String} (h : n ∈ df.names) :
    n ∈ (stageLTI df).names := by
  unfold stageLTI
  split
  · exact mem_names_setCol _ _ _ h
  · exact h

theorem mem_names_stageATC {df : DF} {n : String} (h : n ∈ df.names) :
    n ∈ (stageATC df).names := by
  unfold stageATC
  split
  · exact mem_names_setCol _ _ _ h
  · exact h

theorem mem_names_stageIncomeBracket {df : DF} {n : String} (h : n ∈ df.names) :
    n ∈ (stageIncomeBracket df).names := by
  unfold stageIncomeBracket
  split
  · exact mem_names_setCol _ _ _ h
  · exact h

theorem getCol?_target_stage9 (df : DF) :
    (stage9of df).getCol? TARGET = df.getCol? TARGET := by
  unfold stage9of stage8of stage7of stage6of stage5of stage4of stage3of stageDerived
  rw [getCol?_stageIncomeBracket (by decide)]
  unfold stageWinsor stageRare
  rw [getCol?_foldl_modify _ _ (fun hm => (mem_winsorFieldsOf hm).2 rfl),
    getCol?_foldl_modify _ _ (fun hm => (mem_catColsOf hm).2 rfl),
    getCol?_foldl_modify _ _ (fun hm => (mem_catColsOf hm).2 rfl),
    getCol?_foldl_modify _ _ (fun hm => (mem_numColsOf hm).2 rfl),
    getCol?_stageDrop (Or.inr rfl),
    getCol?_stageATC (by decide), getCol?_stageLTI (by decide),
    getCol?_stageDTI (by decide),
    getCol?_stageEmployment (by decide) (by decide),
    getCol?_stageAge (by decide),
    getCol?_stageObjCat (Or.inr rfl),
    getCol?_stageIds (by decide)]

theorem mem_names_stage9_of_keep {df : DF} {n : String}
    (hk : n ∈ ID_COLS ∨ n = TARGET) (h : n ∈ df.names) :
    n ∈ (stage9of df).names := by
  have h1 : n ∈ (stageIds df).names := by
    rw [show (stageIds df).names = df.names from names_foldl_modify _ _ df]
    exact h
  have h2 : n ∈ (stageObjCat (stageIds df)).names := by
    rw [show (stageObjCat (stageIds df)).names = (stageIds df).names from
      names_foldl_modify _ _ _]
    exact h1
  have h3 : n ∈ (stage3of df).names := by
    unfold stage3of stageDerived
    exact mem_names_stageATC (mem_names_stageLTI (mem_names_stageDTI
      (mem_names_stageEmployment (mem_names_stageAge h2))))
  have h4 : n ∈ (stage4of df).names := by
    unfold stage4of stageDrop
    refine mem_names_dropColumns h3 ?_
    intro hmem
    rcases mem_dropColsOf hmem with ⟨hid, ht⟩
    rcases hk with hk | hk
    exacts [hid hk, ht hk]
  have h5 : n ∈ (stage5of df).names := by
    unfold stage5of
    rw [names_foldl_modify]
    exact h4
  have h6 : n ∈ (stage6of df).names := by
    unfold stage6of
    rw [names_foldl_modify]
    exact h5
  have h7 : n ∈ (stage7of df).names := by
    unfold stage7of stageRare
    rw [names_foldl_modify]
    exact h6
  have h8 : n ∈ (stage8of df).names := by
    unfold stage8of stageWinsor
    rw [names_foldl_modify]
    exact h7
  unfold stage9of
  exact mem_names_stageIncomeBracket h8

/-- C8: the pipeline carries the outcome column over completely unchanged
(same dtype, same values, whether or not it is present); both the identifier
and the outcome column are present in the Cleaned Dataset whenever they were
present in the input; and none of the internal step column lists — the
object→category cast list, the numeric and categorical imputation lists
(the latter also drives the rare-label merge), and the winsorization field
list — ever contains the identifier or the outcome column. -/
theorem preprocess_protects_id_target (df : DF) :
    ((preprocess_application_train df).1.getCol? TARGET = df.getCol? TARGET) ∧
    (TARGET ∈ df.names → TARGET ∈ (preprocess_application_train df).1.names) ∧
    ("SK_ID_CURR" ∈ df.names →
      "SK_ID_CURR" ∈ (preprocess_application_train df).1.names) ∧
    TARGET ∉ objColsOf (stageIds df) ∧ "SK_ID_CURR" ∉ objColsOf (stageIds df) ∧
    TARGET ∉ numColsOf (stage4of df) ∧ "SK_ID_CURR" ∉ numColsOf (stage4of df) ∧
    TARGET ∉ catColsOf (stage4of df) ∧ "SK_ID_CURR" ∉ catColsOf (stage4of df) ∧
    TARGET ∉ winsorFieldsOf (stage7of df) ∧
    "SK_ID_CURR" ∉ winsorFieldsOf (stage7of df) := by
  simp only [preprocess_fst]
  refine ⟨getCol?_target_stage9 df,
    fun h => mem_names_stage9_of_keep (Or.inr rfl) h,
    fun h => mem_names_stage9_of_keep (Or.inl (by decide)) h,
    fun h => (mem_objColsOf h).2 rfl,
    fun h => (mem_objColsOf h).1 (by decide),
    fun h => (mem_numColsOf h).2 rfl,
    fun h => (mem_numColsOf h).1 (by decide),
    fun h => (mem_catColsOf h).2 rfl,
    fun h => (mem_catColsOf h).1 (by decide),
    fun h => (mem_winsorFieldsOf h).2 rfl,
    fun h => (mem_winsorFieldsOf h).1 (by decide)⟩

theorem preprocess_protects_id_target_witness :
    (preprocess_application_train dfRaw).1.getCol? TARGET = dfRaw.getCol? TARGET ∧
    TARGET ∈ (preprocess_application_train dfRaw).1.names ∧
    "SK_ID_CURR" ∈ (preprocess_application_train dfRaw).1.names :=
  ⟨(preprocess_protects_id_target dfRaw).1,
   (preprocess_protects_id_target dfRaw).2.1 (by decide),
   (preprocess_protects_id_target dfRaw).2.2.1 (by decide)⟩

/-- The heap evolution of the pipeline: the caller's frame sits untouched at
address 0 and the working copy at address 1 ends as the Cleaned Dataset. -/
theorem preprocessHeap_eq (raw : DF) :
    preprocessHeap raw = [raw, stage9of raw] := by
  unfold preprocessHeap heapMod stage9of stage8of stage7of stage6of stage5of
    stage4of stage3of
  simp only [List.getD_cons_zero, List.getD_cons_succ, List.singleton_append,
    List.set_cons_succ, List.set_cons_zero]

/-- C10: running the pipeline leaves the caller's raw frame unchanged — every
transformation happens on the `df.copy()` frame, whose final state is exactly
the pipeline's returned Cleaned Dataset. -/
theorem preprocess_copy_semantics (raw : DF) :
    (preprocessHeap raw).getD 0 (DF.mk []) = raw ∧
    (preprocessHeap raw).getD 1 (DF.mk []) = (preprocess_application_train raw).1 := by
  rw [preprocessHeap_eq, preprocess_fst]
  constructor <;> simp

end HomeCredit
